import Mathlib

/-!
Verification of the `justclick` deterministic board generator
(`src/rng.js`, `src/board_gen.js`, second/final revision of `board_gen.js`).

The JavaScript source is embedded shallowly:

* 32-bit integer arithmetic of the seeded RNG (`xmur3`, `mulberry32`) is
  modelled exactly over `Nat` with explicit `% 2^32` where JS applies
  `ToInt32`/`ToUint32`.
* JS `number` arithmetic in the geometry pipeline is modelled by exact
  rational arithmetic (floating-point rounding is not modelled).  To keep
  every definition kernel-executable we use a purpose-built normalised
  rational type `Q` together with an interpretation `Q.val : Q → ℚ` into
  Mathlib's rationals; all symbolic reasoning happens through `Q.val`.
* The transcendental library functions (`Math.cos`, `Math.sin`,
  `Math.sqrt`, `Math.hypot`, `Math.pow`, `Math.PI`), the current time
  (`Date.now()`), and the external d3-delaunay Voronoi provider
  (out of scope per the design: an external collaborator) are parameters,
  bundled in an `Ext` structure; theorems quantify over them.
-/

set_option maxRecDepth 100000

namespace JustClick

/-! ### Executable rationals -/

/-- Executable rational number: numerator, positive denominator, kept in
lowest terms by the smart constructor `Q.norm`. -/
structure Q where
  n : ℤ
  d : ℕ
  pos : 0 < d

instance : DecidableEq Q := fun a b =>
  decidable_of_iff (a.n = b.n ∧ a.d = b.d) (by cases a; cases b; simp)

/-- Normalising constructor: `Q.norm n d` represents `n / d` (and `0` when
`d = 0`, a case never produced by the pipeline). -/
def Q.norm (n d : ℤ) : Q :=
  if hd : d = 0 then ⟨0, 1, Nat.one_pos⟩
  else
    let n2 : ℤ := if d < 0 then -n else n
    let dn : ℕ := d.natAbs
    let g : ℕ := n2.natAbs.gcd dn
    have hdn : 0 < dn := Int.natAbs_pos.mpr hd
    have hg : 0 < g := Nat.gcd_pos_of_pos_right _ hdn
    ⟨n2 / (g : ℤ), dn / g, Nat.div_pos (Nat.le_of_dvd hdn (Nat.gcd_dvd_right _ _)) hg⟩

/-- Interpretation of `Q` in Mathlib's rationals. -/
def Q.val (q : Q) : ℚ := (q.n : ℚ) / (q.d : ℚ)

def Q.ofInt (z : ℤ) : Q := ⟨z, 1, Nat.one_pos⟩

instance (k : ℕ) : OfNat Q k := ⟨Q.ofInt k⟩

def Q.add (a b : Q) : Q := Q.norm (a.n * b.d + b.n * a.d) (a.d * b.d)
def Q.sub (a b : Q) : Q := Q.norm (a.n * b.d - b.n * a.d) (a.d * b.d)
def Q.mul (a b : Q) : Q := Q.norm (a.n * b.n) (a.d * b.d)
def Q.neg (a : Q) : Q := ⟨-a.n, a.d, a.pos⟩
/-- Division; JS would give `Infinity` on a zero divisor, but every division
in the pipeline is guarded, so the `0` default is never observable. -/
def Q.div (a b : Q) : Q := Q.norm (a.n * b.d) (a.d * b.n)
def Q.ble (a b : Q) : Bool := decide (a.n * b.d ≤ b.n * a.d)
def Q.blt (a b : Q) : Bool := decide (a.n * b.d < b.n * a.d)
def Q.le (a b : Q) : Prop := a.n * b.d ≤ b.n * a.d
def Q.lt (a b : Q) : Prop := a.n * b.d < b.n * a.d

instance (a b : Q) : Decidable (Q.le a b) := by unfold Q.le; infer_instance
instance (a b : Q) : Decidable (Q.lt a b) := by unfold Q.lt; infer_instance

def Q.abs (a : Q) : Q := ⟨|a.n|, a.d, a.pos⟩
def Q.min (a b : Q) : Q := if Q.ble a b then a else b
def Q.max (a b : Q) : Q := if Q.ble a b then b else a
/-- `Math.floor` on an exact rational. -/
def Q.floor (a : Q) : ℤ := a.n / (a.d : ℤ)
/-- `Math.round` (half toward `+∞`, as in JS). -/
def Q.round (a : Q) : ℤ := Q.floor (Q.add a (Q.norm 1 2))

/-! Interpretation lemmas for `Q`. -/

theorem Q.val_ofInt (z : ℤ) : (Q.ofInt z).val = (z : ℚ) := by
  simp [Q.val, Q.ofInt]

theorem Q.val_norm (n d : ℤ) (hd : d ≠ 0) : (Q.norm n d).val = (n : ℚ) / (d : ℚ) := by
  unfold Q.norm
  rw [dif_neg hd]
  have hdn : 0 < d.natAbs := Int.natAbs_pos.mpr hd
  set n2 : ℤ := if d < 0 then -n else n with hn2
  set dn : ℕ := d.natAbs with hdnn
  set g : ℕ := n2.natAbs.gcd dn with hgdef
  have hg : 0 < g := Nat.gcd_pos_of_pos_right _ hdn
  have hgz : (g : ℚ) ≠ 0 := by exact_mod_cast hg.ne'
  have hgn : (g : ℤ) ∣ n2 :=
    Int.dvd_natAbs.mp (Int.natCast_dvd_natCast.mpr (Nat.gcd_dvd_left _ _))
  have hgd : g ∣ dn := Nat.gcd_dvd_right _ _
  have h1 : ((n2 / (g : ℤ) : ℤ) : ℚ) = (n2 : ℚ) / (g : ℚ) := by
    exact_mod_cast Int.cast_div_charZero (k := ℚ) hgn
  have h2 : ((dn / g : ℕ) : ℚ) = (dn : ℚ) / (g : ℚ) :=
    Nat.cast_div_charZero hgd
  have hdnq : (dn : ℚ) ≠ 0 := by exact_mod_cast hdn.ne'
  have h3 : (n2 : ℚ) / (g : ℚ) / ((dn : ℚ) / (g : ℚ)) = (n2 : ℚ) / (dn : ℚ) := by
    field_simp
  show ((n2 / (g : ℤ) : ℤ) : ℚ) / ((dn / g : ℕ) : ℚ) = (n : ℚ) / (d : ℚ)
  rw [h1, h2, h3]
  by_cases hneg : d < 0
  · have : (dn : ℤ) = -d := by
      simp [hdnn, Int.ofNat_natAbs_of_nonpos (le_of_lt hneg)]
    have hdq : (dn : ℚ) = -(d : ℚ) := by exact_mod_cast this
    simp only [hn2, if_pos hneg, hdq]
    push_cast
    rw [neg_div_neg_eq]
  · have : (dn : ℤ) = d := by
      simp [hdnn, Int.natAbs_of_nonneg (not_lt.mp hneg)]
    have hdq : (dn : ℚ) = (d : ℚ) := by exact_mod_cast this
    simp only [hn2, if_neg hneg, hdq]

theorem Q.dq_pos (a : Q) : (0 : ℚ) < (a.d : ℚ) := by exact_mod_cast a.pos

theorem Q.dz_ne (a : Q) : (a.d : ℤ) ≠ 0 := by exact_mod_cast a.pos.ne'

theorem Q.dmul_ne (a b : Q) : (a.d : ℤ) * (b.d : ℤ) ≠ 0 :=
  mul_ne_zero a.dz_ne b.dz_ne

theorem Q.val_add (a b : Q) : (a.add b).val = a.val + b.val := by
  unfold Q.add
  rw [Q.val_norm _ _ (Q.dmul_ne a b)]
  unfold Q.val
  have ha : ((a.d : ℕ) : ℚ) ≠ 0 := ne_of_gt a.dq_pos
  have hb : ((b.d : ℕ) : ℚ) ≠ 0 := ne_of_gt b.dq_pos
  field_simp
  try push_cast
  try ring

theorem Q.val_sub (a b : Q) : (a.sub b).val = a.val - b.val := by
  unfold Q.sub
  rw [Q.val_norm _ _ (Q.dmul_ne a b)]
  unfold Q.val
  have ha : ((a.d : ℕ) : ℚ) ≠ 0 := ne_of_gt a.dq_pos
  have hb : ((b.d : ℕ) : ℚ) ≠ 0 := ne_of_gt b.dq_pos
  field_simp
  try push_cast
  try ring

theorem Q.val_mul (a b : Q) : (a.mul b).val = a.val * b.val := by
  unfold Q.mul
  rw [Q.val_norm _ _ (Q.dmul_ne a b)]
  unfold Q.val
  have ha : ((a.d : ℕ) : ℚ) ≠ 0 := ne_of_gt a.dq_pos
  have hb : ((b.d : ℕ) : ℚ) ≠ 0 := ne_of_gt b.dq_pos
  field_simp
  try push_cast
  try ring

theorem Q.val_neg (a : Q) : a.neg.val = -a.val := by
  unfold Q.neg Q.val
  simp [neg_div]

theorem Q.val_div (a b : Q) (hb : b.val ≠ 0) : (a.div b).val = a.val / b.val := by
  have hbn : b.n ≠ 0 := by
    intro h
    apply hb
    simp [Q.val, h]
  unfold Q.div
  have hd : ((a.d : ℕ) : ℤ) * b.n ≠ 0 := mul_ne_zero a.dz_ne hbn
  rw [Q.val_norm _ _ hd]
  unfold Q.val
  have ha : ((a.d : ℕ) : ℚ) ≠ 0 := ne_of_gt a.dq_pos
  have hb2 : ((b.d : ℕ) : ℚ) ≠ 0 := ne_of_gt b.dq_pos
  have hbq : (b.n : ℚ) ≠ 0 := by exact_mod_cast hbn
  field_simp
  try push_cast
  try ring

theorem Q.val_abs (a : Q) : a.abs.val = |a.val| := by
  unfold Q.abs Q.val
  rw [abs_div]
  congr 1
  · push_cast
    ring
  · exact (abs_of_pos a.dq_pos).symm

theorem Q.ble_iff (a b : Q) : a.ble b = true ↔ a.val ≤ b.val := by
  unfold Q.ble Q.val
  rw [decide_eq_true_iff, div_le_div_iff a.dq_pos b.dq_pos]
  constructor
  · intro h; exact_mod_cast h
  · intro h; exact_mod_cast h

theorem Q.blt_iff (a b : Q) : a.blt b = true ↔ a.val < b.val := by
  unfold Q.blt Q.val
  rw [decide_eq_true_iff, div_lt_div_iff a.dq_pos b.dq_pos]
  constructor
  · intro h; exact_mod_cast h
  · intro h; exact_mod_cast h

theorem Q.le_iff (a b : Q) : a.le b ↔ a.val ≤ b.val := by
  have := Q.ble_iff a b
  unfold Q.ble at this
  unfold Q.le
  rw [← this, decide_eq_true_iff]

theorem Q.lt_iff (a b : Q) : a.lt b ↔ a.val < b.val := by
  have := Q.blt_iff a b
  unfold Q.blt at this
  unfold Q.lt
  rw [← this, decide_eq_true_iff]

theorem Q.val_min (a b : Q) : (a.min b).val = Min.min a.val b.val := by
  unfold Q.min
  by_cases h : a.ble b = true
  · rw [if_pos h, min_eq_left ((Q.ble_iff a b).mp h)]
  · rw [if_neg h]
    have h2 : ¬ a.val ≤ b.val := fun hv => h ((Q.ble_iff a b).mpr hv)
    rw [min_eq_right (le_of_not_le h2)]

theorem Q.val_max (a b : Q) : (a.max b).val = Max.max a.val b.val := by
  unfold Q.max
  by_cases h : a.ble b = true
  · rw [if_pos h, max_eq_right ((Q.ble_iff a b).mp h)]
  · rw [if_neg h]
    have h2 : ¬ a.val ≤ b.val := fun hv => h ((Q.ble_iff a b).mpr hv)
    rw [max_eq_left (le_of_not_le h2)]

theorem Q.floor_val (a : Q) : a.floor = ⌊a.val⌋ := by
  have hd : (0 : ℤ) < (a.d : ℤ) := by exact_mod_cast a.pos
  have h1 : a.n / (a.d : ℤ) * (a.d : ℤ) ≤ a.n := Int.ediv_mul_le a.n hd.ne'
  have h2 : a.n < (a.n / (a.d : ℤ) + 1) * (a.d : ℤ) := Int.lt_ediv_add_one_mul_self a.n hd
  symm
  rw [Int.floor_eq_iff]
  unfold Q.val Q.floor
  constructor
  · rw [le_div_iff a.dq_pos]
    exact_mod_cast h1
  · rw [div_lt_iff a.dq_pos]
    exact_mod_cast h2


/-! ### Seeded RNG (`src/rng.js`)

`xmur3` / `mulberry32` use only 32-bit integer arithmetic; bit patterns are
modelled as naturals `< 2^32`, with `% 2^32` inserted exactly where JS
applies `ToInt32`/`ToUint32`.  The `mulberry32` state variable `a` is a JS
number that grows without wrapping (`a += 0x6D2B79F5`), so the state is a
plain natural; every use converts it with `% 2^32` first. -/

def U32 : ℕ := 4294967296

/-- `Math.imul` on 32-bit patterns. -/
def imul (a b : ℕ) : ℕ := a * b % U32

/-- One step of the `xmur3` hashing loop (`h` a 32-bit pattern, `c` a
UTF-16 code unit). -/
def xmur3Step (h c : ℕ) : ℕ :=
  let h2 := imul (h ^^^ c) 3432918353
  (h2 * 8192 % U32) ||| (h2 / 524288)

/-- UTF-16 code units of a string (exact for strings without astral-plane
characters; all seeds considered here are ASCII). -/
def jsCharCodes (s : String) : List ℕ := s.toList.map Char.toNat

/-- The `xmur3` hash state after the loop over the seed string. -/
def xmur3Hash (s : String) : ℕ :=
  (jsCharCodes s).foldl xmur3Step ((1779033703 ^^^ (jsCharCodes s).length % U32) % U32)

/-- The single call `h()` of the returned closure, producing the
`mulberry32` seed. -/
def xmur3Out (h : ℕ) : ℕ :=
  let h1 := imul (h ^^^ (h / 65536)) 2246822507
  let h2 := imul (h1 ^^^ (h1 / 8192)) 3266489909
  h2 ^^^ (h2 / 65536)

/-- One `mulberry32` draw: value in `[0,1)` and next state. -/
def randNext (a : ℕ) : Q × ℕ :=
  let a2 := a + 1831565813
  let t0 := a2 % U32
  let t1 := imul (t0 ^^^ (t0 / 32768)) (t0 ||| 1)
  let m := imul (t1 ^^^ (t1 / 128)) (t1 ||| 61)
  let t2 := t1 ^^^ ((t1 + m) % U32)
  (Q.norm ((t2 ^^^ (t2 / 16384)) : ℕ) (U32 : ℤ), a2)

/-- JS `String.prototype.trim` whitespace test (ASCII whitespace plus
NBSP and the BOM; other Unicode space separators do not occur in the
inputs considered here). -/
def jsWhite (c : Char) : Bool :=
  decide (c.toNat = 32 ∨ (9 ≤ c.toNat ∧ c.toNat ≤ 13) ∨ c.toNat = 160 ∨ c.toNat = 65279)

/-- JS `String.prototype.trim`. -/
def jsTrim (s : String) : String :=
  String.mk (((s.toList.dropWhile jsWhite).reverse.dropWhile jsWhite).reverse)

/-- `makeRng` from `rng.js`: the effective seed string (`seedStr.trim()` when
non-blank, otherwise `String(Date.now())`, supplied as `now`). -/
def effectiveSeed (now seedStr : String) : String :=
  if (jsTrim seedStr).length > 0 then jsTrim seedStr else now

/-- `makeRng` from `rng.js`, returning the initial `mulberry32` state. -/
def makeRng (now seedStr : String) : ℕ :=
  xmur3Out (xmur3Hash (effectiveSeed now seedStr))

/-- JS array element swap `[arr[i], arr[j]] = [arr[j], arr[i]]`. -/
def jsSwap {α : Type} (l : List α) (i j : ℕ) (dflt : α) : List α :=
  let vi := l.getD i dflt
  let vj := l.getD j dflt
  (l.set i vj).set j vi

/-- The loop body chain of `shuffleInPlace` (`rng.js`), iterating
`i = len-1, …, 1`; structural recursion on `i`. -/
def shuffleGo {α : Type} (dflt : α) : List α → ℕ → ℕ → List α × ℕ
  | l, 0, st => (l, st)
  | l, i + 1, st =>
      let rq := randNext st
      let j := (Q.mul rq.1 (Q.ofInt ((i + 2 : ℕ) : ℤ))).floor.toNat
      shuffleGo dflt (jsSwap l (i + 1) j dflt) i rq.2

/-- `shuffleInPlace(arr, rand)` from `rng.js`. -/
def shuffleInPlace {α : Type} (dflt : α) (l : List α) (st : ℕ) : List α × ℕ :=
  shuffleGo dflt l (l.length - 1) st

/-- JS `ToInt32` (the `| 0` coercion). -/
def toInt32 (z : ℤ) : ℤ :=
  let m := z % (U32 : ℤ)
  if m < 2147483648 then m else m - (U32 : ℤ)

/-! Range of `randNext` values. -/

theorem randNext_nonneg (a : ℕ) : 0 ≤ (randNext a).1.val := by
  unfold randNext
  simp only
  rw [Q.val_norm _ _ (by norm_num [U32])]
  positivity

theorem randNext_lt_one (a : ℕ) : (randNext a).1.val < 1 := by
  unfold randNext
  simp only
  rw [Q.val_norm _ _ (by norm_num [U32])]
  rw [div_lt_one (by norm_num [U32])]
  have h1 : ∀ x y : ℕ, x < U32 → y < U32 → x ^^^ y < U32 := by
    intro x y hx hy
    have : U32 = 2 ^ 32 := by norm_num [U32]
    rw [this] at hx hy ⊢
    exact Nat.xor_lt_two_pow hx hy
  have ht1 : imul ((a + 1831565813) % U32 ^^^ (a + 1831565813) % U32 / 32768)
      ((a + 1831565813) % U32 ||| 1) < U32 := Nat.mod_lt _ (by norm_num [U32])
  have hbig : ∀ t1 m2 : ℕ, t1 < U32 → (t1 ^^^ (t1 + m2) % U32) ^^^ (t1 ^^^ (t1 + m2) % U32) / 16384 < U32 := by
    intro t1 m2 h
    apply h1
    · exact h1 _ _ h (Nat.mod_lt _ (by norm_num [U32]))
    · calc (t1 ^^^ (t1 + m2) % U32) / 16384 ≤ t1 ^^^ (t1 + m2) % U32 := Nat.div_le_self _ _
        _ < U32 := h1 _ _ h (Nat.mod_lt _ (by norm_num [U32]))
  have := hbig _ (imul (imul ((a + 1831565813) % U32 ^^^ (a + 1831565813) % U32 / 32768)
      ((a + 1831565813) % U32 ||| 1) ^^^ imul ((a + 1831565813) % U32 ^^^ (a + 1831565813) % U32 / 32768)
      ((a + 1831565813) % U32 ||| 1) / 128) (imul ((a + 1831565813) % U32 ^^^ (a + 1831565813) % U32 / 32768)
      ((a + 1831565813) % U32 ||| 1) ||| 61)) ht1
  exact_mod_cast this


/-! ### Permutation facts about JS swaps and Fisher-Yates shuffles -/

theorem countSet {α : Type} [DecidableEq α] (x b dflt : α) :
    ∀ (l : List α) (i : ℕ), i < l.length →
      (l.set i b).count x + (if l.getD i dflt = x then 1 else 0) =
        l.count x + (if b = x then 1 else 0) := by
  intro l
  induction l with
  | nil => intro i hi; simp at hi
  | cons a t ih =>
      intro i hi
      cases i with
      | zero =>
          simp [List.count_cons]
          omega
      | succ k =>
          have hk : k < t.length := by simpa using hi
          have h2 := ih k hk
          simp only [List.set_cons_succ, List.getD_cons_succ, List.count_cons]
          omega

theorem jsSwap_count {α : Type} [DecidableEq α] (l : List α) (i j : ℕ) (dflt : α)
    (hi : i < l.length) (hj : j < l.length) (x : α) :
    (jsSwap l i j dflt).count x = l.count x := by
  unfold jsSwap
  dsimp only
  by_cases hij : i = j
  · subst hij
    have h1 := countSet x (l.getD i dflt) dflt l i hi
    have hj2 : i < (l.set i (l.getD i dflt)).length := by simpa using hi
    have h2 := countSet x (l.getD i dflt) dflt (l.set i (l.getD i dflt)) i hj2
    have hgd : (l.set i (l.getD i dflt)).getD i dflt = l.getD i dflt := by
      rw [List.getD_eq_getElem _ _ hj2, List.getElem_set_self, List.getD_eq_getElem _ _ hi]
    rw [hgd] at h2
    omega
  · have h1 := countSet x (l.getD j dflt) dflt l i hi
    have hj2 : j < (l.set i (l.getD j dflt)).length := by simpa using hj
    have h2 := countSet x (l.getD i dflt) dflt (l.set i (l.getD j dflt)) j hj2
    have hgd : (l.set i (l.getD j dflt)).getD j dflt = l.getD j dflt := by
      rw [List.getD_eq_getElem _ _ hj2, List.getElem_set_ne (by omega)]
      exact (List.getD_eq_getElem _ _ hj).symm
    rw [hgd] at h2
    omega

theorem jsSwap_length {α : Type} (l : List α) (i j : ℕ) (dflt : α) :
    (jsSwap l i j dflt).length = l.length := by
  simp [jsSwap]

theorem jsSwap_perm {α : Type} [DecidableEq α] (l : List α) (i j : ℕ) (dflt : α)
    (hi : i < l.length) (hj : j < l.length) : (jsSwap l i j dflt).Perm l := by
  rw [List.perm_iff_count]
  intro x
  exact jsSwap_count l i j dflt hi hj x

/-- Floor of a `[0,1)` draw scaled by `k` is `< k`. -/
theorem randIndex_lt (st : ℕ) (k : ℕ) (hk : 0 < k) :
    ((Q.mul (randNext st).1 (Q.ofInt k)).floor).toNat < k := by
  have h0 := randNext_nonneg st
  have h1 := randNext_lt_one st
  have hv : (Q.mul (randNext st).1 (Q.ofInt k)).val < (k : ℚ) := by
    rw [Q.val_mul, Q.val_ofInt]
    calc (randNext st).1.val * (k : ℚ) < 1 * (k : ℚ) := by
          apply mul_lt_mul_of_pos_right h1
          exact_mod_cast hk
      _ = (k : ℚ) := one_mul _
  have hf : (Q.mul (randNext st).1 (Q.ofInt k)).floor < (k : ℤ) := by
    rw [Q.floor_val]
    exact_mod_cast Int.floor_lt.mpr (by exact_mod_cast hv)
  omega

theorem shuffleGo_perm {α : Type} [DecidableEq α] (dflt : α) :
    ∀ (i : ℕ) (l : List α) (st : ℕ), i < l.length → ((shuffleGo dflt l i st).1).Perm l := by
  intro i
  induction i with
  | zero => intro l st _; exact List.Perm.refl l
  | succ k ih =>
      intro l st hi
      unfold shuffleGo
      simp only
      have hj : ((Q.mul (randNext st).1 (Q.ofInt ((k + 2 : ℕ) : ℤ))).floor).toNat < l.length := by
        have := randIndex_lt st (k + 2) (by omega)
        omega
      have hperm := jsSwap_perm l (k + 1)
        ((Q.mul (randNext st).1 (Q.ofInt ((k + 2 : ℕ) : ℤ))).floor).toNat dflt hi hj
      have hlen : (jsSwap l (k + 1)
          ((Q.mul (randNext st).1 (Q.ofInt ((k + 2 : ℕ) : ℤ))).floor).toNat dflt).length = l.length :=
        jsSwap_length _ _ _ _
      exact ((ih _ (randNext st).2 (by omega)).trans hperm)

theorem shuffleInPlace_perm {α : Type} [DecidableEq α] (dflt : α) (l : List α) (st : ℕ) :
    ((shuffleInPlace dflt l st).1).Perm l := by
  unfold shuffleInPlace
  cases l with
  | nil => simp [shuffleGo]
  | cons a t =>
      apply shuffleGo_perm
      simp


/-! ### Geometry kernel (`board_gen.js`, final revision) -/

/-- 2-D point. -/
abbrev P2 : Type := Q × Q

/-- Half-plane `a*x + b*y <= c`. -/
structure Plane where
  a : Q
  b : Q
  c : Q

instance : DecidableEq Plane := fun p q =>
  decidable_of_iff (p.a = q.a ∧ p.b = q.b ∧ p.c = q.c) (by cases p; cases q; simp)

def qHalf : Q := Q.norm 1 2
/-- `1e-9`, the inside-test tolerance. -/
def qEps9 : Q := Q.norm 1 1000000000
/-- `1e-12`, the near-parallel tolerance. -/
def qEps12 : Q := Q.norm 1 1000000000000
/-- `1e-6`. -/
def qEps6 : Q := Q.norm 1 1000000
/-- JS `Infinity`, only reachable through code paths the pipeline never
takes (empty plane lists); modelled as a huge rational. -/
def qInf : Q := Q.ofInt (10 ^ 40)

/-- JS `clamp(v, lo, hi) = Math.max(lo, Math.min(hi, v))`. -/
def jsClamp (v lo hi : Q) : Q := Q.max lo (Q.min hi v)

/-- Consecutive-edge pairs `(poly[i], poly[(i+1) % n])`. -/
def edgePairs (poly : List P2) : List (P2 × P2) := poly.zip (poly.rotate 1)

/-- Pairs `(poly[i], poly[j])` with `j` the cyclic predecessor of `i`,
matching the `j = i++` loop idiom of the source. -/
def prevPairs (poly : List P2) : List (P2 × P2) := poly.zip (poly.rotate (poly.length - 1))

/-- `polygonArea` (unsigned). -/
def polygonArea (poly : List P2) : Q :=
  let a := (prevPairs poly).foldl
    (fun acc pq => Q.add acc (Q.sub (Q.mul pq.2.1 pq.1.2) (Q.mul pq.1.1 pq.2.2))) (Q.ofInt 0)
  Q.mul a.abs qHalf

/-- `polygonCentroid` with its degenerate-area fallback. -/
def polygonCentroid (poly : List P2) : P2 :=
  let acc := (prevPairs poly).foldl
    (fun acc pq =>
      let f := Q.sub (Q.mul pq.2.1 pq.1.2) (Q.mul pq.1.1 pq.2.2)
      (Q.add acc.1 f,
       Q.add acc.2.1 (Q.mul (Q.add pq.2.1 pq.1.1) f),
       Q.add acc.2.2 (Q.mul (Q.add pq.2.2 pq.1.2) f)))
    (Q.ofInt 0, Q.ofInt 0, Q.ofInt 0)
  let a := Q.mul acc.1 qHalf
  if Q.blt a.abs qEps9 then poly.getD (poly.length / 2) (Q.ofInt 0, Q.ofInt 0)
  else (Q.div acc.2.1 (Q.mul (Q.ofInt 6) a), Q.div acc.2.2 (Q.mul (Q.ofInt 6) a))

/-- `cleanD3Polygon`: drop a duplicated closing vertex. -/
def cleanD3Polygon : Option (List P2) → Option (List P2)
  | none => none
  | some poly =>
      if poly.length < 3 then none
      else
        let f := poly.getD 0 (Q.ofInt 0, Q.ofInt 0)
        let l := poly.getD (poly.length - 1) (Q.ofInt 0, Q.ofInt 0)
        if f.1 = l.1 ∧ f.2 = l.2 then some poly.dropLast else some poly

/-- The signed plane value `a*x + b*y - c`. -/
def planeVal (pl : Plane) (p : P2) : Q :=
  Q.sub (Q.add (Q.mul pl.a p.1) (Q.mul pl.b p.2)) pl.c

/-- `isInsidePlane` with its default `eps = 1e-9`. -/
def isInsidePlane (p : P2) (pl : Plane) : Bool :=
  Q.ble (planeVal pl p) qEps9

/-- `intersectSegPlane`. -/
def intersectSegPlane (s e : P2) (pl : Plane) : P2 :=
  let dx := Q.sub e.1 s.1
  let dy := Q.sub e.2 s.2
  let denom := Q.add (Q.mul pl.a dx) (Q.mul pl.b dy)
  if Q.blt denom.abs qEps12 then (s.1, s.2)
  else
    let t := Q.div (Q.sub pl.c (Q.add (Q.mul pl.a s.1) (Q.mul pl.b s.2))) denom
    let tt := jsClamp t (Q.ofInt 0) (Q.ofInt 1)
    (Q.add s.1 (Q.mul tt dx), Q.add s.2 (Q.mul tt dy))

/-- One edge of the Sutherland-Hodgman pass. -/
def clipStep (pl : Plane) (acc : List P2) (se : P2 × P2) : List P2 :=
  let sIn := isInsidePlane se.1 pl
  let eIn := isInsidePlane se.2 pl
  if eIn then
    (if sIn then acc ++ [se.2] else acc ++ [intersectSegPlane se.1 se.2 pl, se.2])
  else if sIn then acc ++ [intersectSegPlane se.1 se.2 pl]
  else acc

/-- `clipPolyByPlane` (one Sutherland-Hodgman step). -/
def clipPolyByPlane (poly : List P2) (pl : Plane) : Option (List P2) :=
  if poly.length < 3 then none
  else
    let out := (edgePairs poly).foldl (clipStep pl) []
    if 3 ≤ out.length then some out else none

/-- `clipPolyByPlanes`. -/
def clipPolyByPlanes (poly : List P2) (planes : List Plane) : Option (List P2) :=
  planes.foldl
    (fun acc pl => match acc with
      | none => none
      | some p => clipPolyByPlane p pl)
    (some poly)

/-- `isInsideAllPlanes`. -/
def isInsideAllPlanes (p : P2) (planes : List Plane) : Bool :=
  planes.all (fun pl => isInsidePlane p pl)

/-- The 32 bisection steps of `clampToPlanesByBisection`. -/
def bisectGo (planes : List Plane) : ℕ → P2 → P2 → P2
  | 0, lo, _ => lo
  | k + 1, lo, hi =>
      let mid : P2 := (Q.mul (Q.add lo.1 hi.1) qHalf, Q.mul (Q.add lo.2 hi.2) qHalf)
      if isInsideAllPlanes mid planes then bisectGo planes k mid hi
      else bisectGo planes k lo mid

/-- `clampToPlanesByBisection`. -/
def clampToPlanesByBisection (p insidePoint : P2) (planes : List Plane) : P2 :=
  if isInsideAllPlanes p planes then p else bisectGo planes 32 insidePoint p

/-- `minPlaneDistance`; needs the external `Math.hypot`.  `none` encodes the
JS `Infinity` initial value surviving an empty plane list. -/
def minPlaneDistance (hyp : Q → Q → Q) (p : P2) (planes : List Plane) : Option Q :=
  planes.foldl
    (fun best pl =>
      let h := hyp pl.a pl.b
      let denom := if h.n = 0 then Q.ofInt 1 else h
      let dd := Q.div (Q.sub pl.c (Q.add (Q.mul pl.a p.1) (Q.mul pl.b p.2))) denom
      match best with
      | none => some dd
      | some b => if Q.blt dd b then some dd else some b)
    none

/-- `minPlaneDistance(q, planes) >= margin` as used in the source. -/
def mpdGe (hyp : Q → Q → Q) (p : P2) (planes : List Plane) (margin : Q) : Bool :=
  match minPlaneDistance hyp p planes with
  | none => true
  | some d2 => Q.ble margin d2

/-- `minPlaneDistance` as a value (`Infinity` when the plane list is empty,
which the pipeline never produces). -/
def mpdVal (hyp : Q → Q → Q) (p : P2) (planes : List Plane) : Q :=
  (minPlaneDistance hyp p planes).getD qInf

/-- `moveTowardInsideToSatisfyMargin` (28 halving steps). -/
def moveTowardGo (hyp : Q → Q → Q) (insidePoint : P2) (planes : List Plane) (margin : Q) :
    ℕ → P2 → P2
  | 0, p => p
  | k + 1, p =>
      if mpdGe hyp p planes margin then p
      else moveTowardGo hyp insidePoint planes margin k
        (Q.mul (Q.add p.1 insidePoint.1) qHalf, Q.mul (Q.add p.2 insidePoint.2) qHalf)

def moveTowardInsideToSatisfyMargin (hyp : Q → Q → Q) (p insidePoint : P2)
    (planes : List Plane) (margin : Q) : P2 :=
  moveTowardGo hyp insidePoint planes margin 28 p

/-- Cut-line data produced by `generateParallelLines`. -/
structure Lines where
  nx : Q
  ny : Q
  t1 : Q
  t2 : Q

def makeSquarePlanes (size : Q) : List Plane :=
  [ ⟨Q.ofInt (-1), Q.ofInt 0, Q.ofInt 0⟩,
    ⟨Q.ofInt 1, Q.ofInt 0, size⟩,
    ⟨Q.ofInt 0, Q.ofInt (-1), Q.ofInt 0⟩,
    ⟨Q.ofInt 0, Q.ofInt 1, size⟩ ]

/-- Region plane sets `left / mid / right`. -/
structure RegionPlanes where
  left : List Plane
  mid : List Plane
  right : List Plane

def makeRegionPlanes (size : Q) (l : Lines) : RegionPlanes :=
  let sq := makeSquarePlanes size
  { left := sq ++ [⟨l.nx, l.ny, l.t1⟩],
    mid := sq ++ [⟨l.nx.neg, l.ny.neg, l.t1.neg⟩, ⟨l.nx, l.ny, l.t2⟩],
    right := sq ++ [⟨l.nx.neg, l.ny.neg, l.t2.neg⟩] }

def squareCorners (size : Q) : List P2 :=
  [(Q.ofInt 0, Q.ofInt 0), (size, Q.ofInt 0), (size, size), (Q.ofInt 0, size)]

def regionPolyFromPlanes (size : Q) (planes : List Plane) : List P2 :=
  match clipPolyByPlanes (squareCorners size) planes with
  | none => squareCorners size
  | some poly => if poly.length < 3 then squareCorners size else poly

/-- `triArea`. -/
def triArea (a b c : P2) : Q :=
  Q.mul (Q.abs (Q.sub (Q.mul (Q.sub b.1 a.1) (Q.sub c.2 a.2))
                      (Q.mul (Q.sub b.2 a.2) (Q.sub c.1 a.1)))) qHalf

structure Tri where
  ta : P2
  tb : P2
  tc : P2
  area : Q

structure TriFan where
  tris : List Tri
  total : Q

/-- `makeFanTriangles`. -/
def makeFanTriangles (poly : List P2) : TriFan :=
  let v0 := poly.getD 0 (Q.ofInt 0, Q.ofInt 0)
  (List.range' 1 (poly.length - 2)).foldl
    (fun acc i =>
      let b := poly.getD i (Q.ofInt 0, Q.ofInt 0)
      let c := poly.getD (i + 1) (Q.ofInt 0, Q.ofInt 0)
      let ar := triArea v0 b c
      if Q.blt qEps12 ar then ⟨acc.tris ++ [⟨v0, b, c, ar⟩], Q.add acc.total ar⟩ else acc)
    ⟨[], Q.ofInt 0⟩

/-- `samplePointInTriangle` (consumes two draws). -/
def samplePointInTriangle (a b c : P2) (st : ℕ) : P2 × ℕ :=
  let rq1 := randNext st
  let rq2 := randNext rq1.2
  let r1 := rq1.1
  let r2 := rq2.1
  let flip := Q.blt (Q.ofInt 1) (Q.add r1 r2)
  let r1b := if flip then Q.sub (Q.ofInt 1) r1 else r1
  let r2b := if flip then Q.sub (Q.ofInt 1) r2 else r2
  ((Q.add a.1 (Q.add (Q.mul r1b (Q.sub b.1 a.1)) (Q.mul r2b (Q.sub c.1 a.1))),
    Q.add a.2 (Q.add (Q.mul r1b (Q.sub b.2 a.2)) (Q.mul r2b (Q.sub c.2 a.2)))), rq2.2)

/-- Triangle-picking loop of `sampleUniformInConvexPoly`
(the last triangle is always accepted, as in the source). -/
def pickTri : Q → List Tri → Tri → Tri
  | _, [], fb => fb
  | _, [t], _ => t
  | r, t :: rest, fb =>
      let r2 := Q.sub r t.area
      if Q.ble r2 (Q.ofInt 0) then t else pickTri r2 rest fb

/-- `sampleUniformInConvexPoly` (degenerate fan falls back to the centroid,
consuming no draw; otherwise consumes three draws). -/
def sampleUniformInConvexPoly (poly : List P2) (cache : TriFan) (st : ℕ) : P2 × ℕ :=
  if cache.tris.isEmpty ∨ Q.ble cache.total (Q.ofInt 0) then (polygonCentroid poly, st)
  else
    let rq := randNext st
    let r := Q.mul rq.1 cache.total
    let t := pickTri r cache.tris (cache.tris.headD ⟨(Q.ofInt 0, Q.ofInt 0), (Q.ofInt 0, Q.ofInt 0), (Q.ofInt 0, Q.ofInt 0), Q.ofInt 0⟩)
    samplePointInTriangle t.ta t.tb t.tc rq.2


/-! ### External collaborators -/

/-- External functions: JS `Math` transcendentals, and the d3-delaunay
Voronoi provider (`voronoi sites size i` models
`d3.Delaunay.from(sites).voronoi([0,0,size,size]).cellPolygon(i)`, with
`none` for a null/degenerate cell). -/
structure Ext where
  pi : Q
  cos : Q → Q
  sin : Q → Q
  sqrt : Q → Q
  hypot : Q → Q → Q
  pow : Q → Q → Q
  voronoi : List P2 → Q → ℕ → Option (List P2)

/-! ### Random parallel cut lines -/

/-- `generateParallelLines` (consumes four draws). -/
def generateParallelLines (E : Ext) (size : Q) (st : ℕ) : Lines × ℕ :=
  let deg := Q.div E.pi (Q.ofInt 180)
  let thetaMax := Q.mul (Q.ofInt 18) deg
  let rq := randNext st
  let theta := Q.add (Q.div E.pi (Q.ofInt 2))
    (Q.mul (Q.sub (Q.mul rq.1 (Q.ofInt 2)) (Q.ofInt 1)) thetaMax)
  let nx := E.cos theta
  let ny := E.sin theta
  let t00 := Q.ofInt 0
  let t10 := Q.mul nx size
  let t11 := Q.add (Q.mul nx size) (Q.mul ny size)
  let t01 := Q.mul ny size
  let minT := Q.min (Q.min (Q.min t00 t10) t11) t01
  let maxT := Q.max (Q.max (Q.max t00 t10) t11) t01
  let lw := Q.sub maxT minT
  let minW := Q.mul (Q.norm 9 50) lw
  let rem := Q.sub lw (Q.mul (Q.ofInt 3) minW)
  let ra := randNext rq.2
  let rb := randNext ra.2
  let rc := randNext rb.2
  let r0 := Q.add ra.1 qEps6
  let r1 := Q.add rb.1 qEps6
  let r2 := Q.add rc.1 qEps6
  let rs := Q.add (Q.add r0 r1) r2
  let w0 := Q.add minW (Q.div (Q.mul rem r0) rs)
  let w1 := Q.add minW (Q.div (Q.mul rem r1) rs)
  let t1 := Q.add minT w0
  let t2 := Q.add (Q.add minT w0) w1
  (⟨nx, ny, t1, t2⟩, rc.2)

/-! ### Avoid zones, duplicate nudging, separation -/

/-- Circular avoid zone. -/
structure Zone where
  cx : Q
  cy : Q
  r : Q

/-- `pushOutOfZones` (draws only in the coincident-center case). -/
def pushOutOfZones (E : Ext) (p : P2) (zones : List Zone) (st : ℕ) : P2 × ℕ :=
  zones.foldl
    (fun acc z =>
      let x := acc.1.1
      let y := acc.1.2
      let dx := Q.sub x z.cx
      let dy := Q.sub y z.cy
      let d := E.hypot dx dy
      if Q.blt d z.r then
        let dir : (Q × Q) × ℕ :=
          if Q.blt d qEps9 then
            let rq := randNext acc.2
            let ang := Q.mul rq.1 (Q.mul E.pi (Q.ofInt 2))
            ((E.cos ang, E.sin ang), rq.2)
          else ((Q.div dx d, Q.div dy d), acc.2)
        let rr := Q.add z.r qEps6
        ((Q.add z.cx (Q.mul dir.1.1 rr), Q.add z.cy (Q.mul dir.1.2 rr)), dir.2)
      else acc)
    (p, st)

/-- Rounded coordinate key used by the duplicate detector. -/
def keyOf (p : P2) : ℤ × ℤ :=
  (Q.round (Q.mul p.1 (Q.ofInt 1000)), Q.round (Q.mul p.2 (Q.ofInt 1000)))

/-- Association-list model of the JS `Map` used for `seen`. -/
abbrev SeenMap : Type := List ((ℤ × ℤ) × ℕ)

def mapGet (m : SeenMap) (k : ℤ × ℤ) : Option ℕ :=
  (m.find? (fun e => e.1 = k)).map (fun e => e.2)

def mapSet (m : SeenMap) (k : ℤ × ℤ) (v : ℕ) : SeenMap :=
  if (m.find? (fun e => e.1 = k)).isSome then
    m.map (fun e => if e.1 = k then (k, v) else e)
  else m ++ [(k, v)]

/-- `!!fixedMask[i]` (with `null` masks and out-of-range reads false). -/
def maskGet (mask : Option (List Bool)) (i : ℕ) : Bool :=
  match mask with
  | none => false
  | some l => l.getD i false

/-- The jitter `while` loop inside `nudgeDuplicatesWithinPlanes`
(at most 24 tries, two draws and one clamp per try). -/
def nudgeTries (seen : SeenMap) (planes : List Plane) (insidePoint : P2) :
    ℕ → P2 → ℕ → P2 × ℕ
  | 0, p, st => (p, st)
  | fuel + 1, p, st =>
      if (mapGet seen (keyOf p)).isSome then
        let rq1 := randNext st
        let rq2 := randNext rq1.2
        let x := Q.add p.1 (Q.mul (Q.sub rq1.1 qHalf) (Q.norm 4 5))
        let y := Q.add p.2 (Q.mul (Q.sub rq2.1 qHalf) (Q.norm 4 5))
        let q := clampToPlanesByBisection (x, y) insidePoint planes
        nudgeTries seen planes insidePoint fuel q rq2.2
      else (p, st)

/-- One index step of `nudgeDuplicatesWithinPlanes`. -/
def nudgeStep (planes : List Plane) (insidePoint : P2) (mask : Option (List Bool))
    (acc : List P2 × SeenMap × ℕ) (i : ℕ) : List P2 × SeenMap × ℕ :=
  let pts := acc.1
  let seen := acc.2.1
  let st0 := acc.2.2
  let p := pts.getD i (Q.ofInt 0, Q.ofInt 0)
  let key := keyOf p
  match mapGet seen key with
  | none => (pts, mapSet seen key i, st0)
  | some j =>
      let iFixed := maskGet mask i
      let jFixed := maskGet mask j
      if iFixed ∧ jFixed then (pts, seen, st0)
      else
        let k := if iFixed ∧ ¬ jFixed then j else i
        let start := pts.getD k (Q.ofInt 0, Q.ofInt 0)
        let moved := nudgeTries seen planes insidePoint 24 start st0
        (pts.set k moved.1, mapSet seen (keyOf moved.1) k, moved.2)

/-- `nudgeDuplicatesWithinPlanes` (final revision, `fixedMask`-aware). -/
def nudgeDuplicatesWithinPlanes (points : List P2) (planes : List Plane)
    (insidePoint : P2) (st : ℕ) (mask : Option (List Bool)) : List P2 × ℕ :=
  let r := (List.range points.length).foldl (nudgeStep planes insidePoint mask)
    (points, ([] : SeenMap), st)
  (r.1, r.2.2)

/-- `minDistFromArea`. -/
def minDistFromArea (E : Ext) (area : Q) (m : ℕ) (factor : Q) : Q :=
  if m ≤ 1 then Q.ofInt 0
  else Q.mul factor (E.sqrt (Q.div area (Q.ofInt m)))

/-- Inner `j` loop of one `separationSweep` pass. -/
def sweepJ (E : Ext) (mask : Option (List Bool)) (minDist min2 : Q) (planes : List Plane)
    (insidePoint : P2) (zones : List Zone) (applyZones : Bool) (i : ℕ) :
    List P2 × ℕ → ℕ → List P2 × ℕ :=
  fun acc j =>
    let pts := acc.1
    let st := acc.2
    let pi0 := pts.getD i (Q.ofInt 0, Q.ofInt 0)
    let pj0 := pts.getD j (Q.ofInt 0, Q.ofInt 0)
    let dx := Q.sub pj0.1 pi0.1
    let dy := Q.sub pj0.2 pi0.2
    let d2 := Q.add (Q.mul dx dx) (Q.mul dy dy)
    if Q.ble min2 d2 then acc
    else
      let dval := E.sqrt d2
      let dir : (Q × Q × Q) × ℕ :=
        if Q.blt dval qEps9 then
          let rq := randNext st
          let ang := Q.mul rq.1 (Q.mul E.pi (Q.ofInt 2))
          ((E.cos ang, E.sin ang, Q.ofInt 0), rq.2)
        else ((Q.div dx dval, Q.div dy dval, dval), st)
      let ux := dir.1.1
      let uy := dir.1.2.1
      let push := Q.mul (Q.sub minDist dir.1.2.2) qHalf
      let ai0 : P2 := (Q.sub pi0.1 (Q.mul ux push), Q.sub pi0.2 (Q.mul uy push))
      let aj0 : P2 := (Q.add pj0.1 (Q.mul ux push), Q.add pj0.2 (Q.mul uy push))
      let ai1 := clampToPlanesByBisection ai0 insidePoint planes
      let aj1 := clampToPlanesByBisection aj0 insidePoint planes
      let ares : (P2 × P2) × ℕ :=
        if applyZones ∧ ¬ zones.isEmpty then
          let za : P2 × ℕ :=
            if ¬ maskGet mask i then
              let z1 := pushOutOfZones E ai1 zones dir.2
              (clampToPlanesByBisection z1.1 insidePoint planes, z1.2)
            else (ai1, dir.2)
          let zb : P2 × ℕ :=
            if ¬ maskGet mask j then
              let z2 := pushOutOfZones E aj1 zones za.2
              (clampToPlanesByBisection z2.1 insidePoint planes, z2.2)
            else (aj1, za.2)
          ((za.1, zb.1), zb.2)
        else ((ai1, aj1), dir.2)
      ((pts.set i ares.1.1).set j ares.1.2, ares.2)

/-- One `separationSweep` pass. -/
def separationSweep (E : Ext) (mask : Option (List Bool)) (minDist min2 : Q)
    (planes : List Plane) (insidePoint : P2) (zones : List Zone) (applyZones : Bool)
    (n : ℕ) (pts : List P2) (st : ℕ) : List P2 × ℕ :=
  (List.range n).foldl
    (fun acc i =>
      (List.range' (i + 1) (n - (i + 1))).foldl
        (sweepJ E mask minDist min2 planes insidePoint zones applyZones i) acc)
    (pts, st)

/-- Pre-pass that pushes non-anchored points out of the avoid zones. -/
def zonesPrePass (E : Ext) (mask : Option (List Bool)) (planes : List Plane)
    (insidePoint : P2) (zones : List Zone) (n : ℕ) (pts : List P2) (st : ℕ) :
    List P2 × ℕ :=
  (List.range n).foldl
    (fun acc i =>
      if maskGet mask i then acc
      else
        let p := acc.1.getD i (Q.ofInt 0, Q.ofInt 0)
        let z1 := pushOutOfZones E p zones acc.2
        let q := clampToPlanesByBisection z1.1 insidePoint planes
        (acc.1.set i q, z1.2))
    (pts, st)

/-- The five main passes of `enforceMinDistanceAnchored`. -/
def enforcePasses (E : Ext) (mask : Option (List Bool)) (minDist min2 : Q)
    (planes : List Plane) (insidePoint : P2) (zones : List Zone) (n : ℕ) :
    ℕ → List P2 → ℕ → List P2 × ℕ
  | 0, pts, st => (pts, st)
  | k + 1, pts, st =>
      let a :=
        if ¬ zones.isEmpty then zonesPrePass E mask planes insidePoint zones n pts st
        else (pts, st)
      let b := separationSweep E mask minDist min2 planes insidePoint zones false n a.1 a.2
      let c := nudgeDuplicatesWithinPlanes b.1 planes insidePoint b.2 none
      let d := separationSweep E mask minDist min2 planes insidePoint zones false n c.1 c.2
      enforcePasses E mask minDist min2 planes insidePoint zones n k d.1 d.2

/-- `enforceMinDistanceAnchored`. -/
def enforceMinDistanceAnchored (E : Ext) (points : List P2) (mask : Option (List Bool))
    (minDist : Q) (planes : List Plane) (insidePoint : P2) (zones : List Zone) (st : ℕ) :
    List P2 × ℕ :=
  let n := points.length
  if n ≤ 1 ∨ ¬ (Q.blt (Q.ofInt 0) minDist) then (points, st)
  else
    let min2 := Q.mul minDist minDist
    let a := enforcePasses E mask minDist min2 planes insidePoint zones n 5 points st
    let b := separationSweep E mask minDist min2 planes insidePoint zones false n a.1 a.2
    separationSweep E mask minDist min2 planes insidePoint zones false n b.1 b.2

/-! ### Constrained Lloyd relaxation (anchored) -/

/-- One relaxed position inside `lloydRelaxInRegionAnchored`
(`Number.isFinite` cannot fail under exact arithmetic and is not modelled). -/
def lloydNewPoint (E : Ext) (size : Q) (planes : List Plane) (inside : P2)
    (zones : List Zone) (pts : List P2) (i : ℕ) (st : ℕ) : P2 × ℕ :=
  let keep := (pts.getD i (Q.ofInt 0, Q.ofInt 0), st)
  match cleanD3Polygon (E.voronoi pts size i) with
  | none => keep
  | some cleaned =>
      if cleaned.length < 3 then keep
      else
        match clipPolyByPlanes cleaned planes with
        | none => keep
        | some clipped =>
            if clipped.length < 3 then keep
            else
              let c0 := polygonCentroid clipped
              let c1 := clampToPlanesByBisection c0 inside planes
              let z := pushOutOfZones E c1 zones st
              (clampToPlanesByBisection z.1 inside planes, z.2)

/-- One slot of the per-site rebuild inside `lloydRelaxInRegionAnchored`
(anchored sites are copied through unchanged). -/
def lloydBuildStep (E : Ext) (mask : Option (List Bool)) (size : Q) (planes : List Plane)
    (inside : P2) (zones : List Zone) (pts : List P2) (acc : List P2 × ℕ) (i : ℕ) :
    List P2 × ℕ :=
  if maskGet mask i then (acc.1 ++ [pts.getD i (Q.ofInt 0, Q.ofInt 0)], acc.2)
  else
    let np := lloydNewPoint E size planes inside zones pts i acc.2
    (acc.1 ++ [np.1], np.2)

/-- One slot of the trailing keep-free-points-out-of-zones sweep. -/
def zonesFixStep (E : Ext) (mask : Option (List Bool)) (planes : List Plane)
    (inside : P2) (zones : List Zone) (acc : List P2 × ℕ) (i : ℕ) : List P2 × ℕ :=
  if maskGet mask i then acc
  else
    let z := pushOutOfZones E (acc.1.getD i (Q.ofInt 0, Q.ofInt 0)) zones acc.2
    let q := clampToPlanesByBisection z.1 inside planes
    (acc.1.set i q, z.2)

/-- One iteration of `lloydRelaxInRegionAnchored`. -/
def lloydIter (E : Ext) (mask : Option (List Bool)) (size : Q) (planes : List Plane)
    (inside : P2) (zones : List Zone) (pts : List P2) (st : ℕ) : List P2 × ℕ :=
  let stepped := (List.range pts.length).foldl
    (lloydBuildStep E mask size planes inside zones pts) (([] : List P2), st)
  let nudged := nudgeDuplicatesWithinPlanes stepped.1 planes inside stepped.2 mask
  if ¬ zones.isEmpty then
    (List.range nudged.1.length).foldl (zonesFixStep E mask planes inside zones) nudged
  else nudged

/-- `lloydRelaxInRegionAnchored`. -/
def lloydRelaxInRegionAnchored (E : Ext) (mask : Option (List Bool)) (size : Q)
    (planes : List Plane) (inside : P2) (zones : List Zone) :
    ℕ → List P2 → ℕ → List P2 × ℕ
  | 0, pts, st => (pts, st)
  | k + 1, pts, st =>
      let one := lloydIter E mask size planes inside zones pts st
      lloydRelaxInRegionAnchored E mask size planes inside zones k one.1 one.2

/-! ### Final cell construction -/

def makeFallbackTriangle (pt : P2) (size : Q) : List P2 :=
  let dd := Q.max (Q.norm 11 10) (Q.mul size (Q.norm 2 1000))
  [ (Q.sub pt.1 dd, Q.sub pt.2 dd),
    (Q.add pt.1 dd, Q.sub pt.2 dd),
    (pt.1, Q.add pt.2 dd) ]

structure Cell where
  poly : List P2
  centroid : P2
  num : ℕ

instance : DecidableEq Cell := fun a b =>
  decidable_of_iff (a.poly = b.poly ∧ a.centroid = b.centroid ∧ a.num = b.num)
    (by cases a; cases b; simp)

/-- The polygon chosen for site `i` by `buildCellsForRegion`. -/
def cellPolyFor (E : Ext) (points : List P2) (size : Q) (planes : List Plane) (i : ℕ) :
    List P2 :=
  let pt := points.getD i (Q.ofInt 0, Q.ofInt 0)
  let cleaned : List P2 :=
    match cleanD3Polygon (E.voronoi points size i) with
    | none => makeFallbackTriangle pt size
    | some cl => if cl.length < 3 then makeFallbackTriangle pt size else cl
  match clipPolyByPlanes cleaned planes with
  | some clipped =>
      if clipped.length < 3 then
        (match clipPolyByPlanes (makeFallbackTriangle pt size) planes with
         | some c2 => c2
         | none => makeFallbackTriangle pt size)
      else clipped
  | none =>
      match clipPolyByPlanes (makeFallbackTriangle pt size) planes with
      | some c2 => c2
      | none => makeFallbackTriangle pt size

/-- `buildCellsForRegion` (the final `fb2` re-check is unreachable because
the previous fallbacks always yield at least three vertices, but it is
modelled anyway, exactly as written). -/
def buildCellsForRegion (E : Ext) (points : List P2) (size : Q) (planes : List Plane) :
    List Cell :=
  (List.range points.length).map
    (fun i =>
      let clipped := cellPolyFor E points size planes i
      let final :=
        if clipped.length < 3 then
          let pt := points.getD i (Q.ofInt 0, Q.ofInt 0)
          [ (jsClamp (Q.sub pt.1 (Q.ofInt 1)) (Q.ofInt 0) size,
             jsClamp (Q.sub pt.2 (Q.ofInt 1)) (Q.ofInt 0) size),
            (jsClamp (Q.add pt.1 (Q.ofInt 1)) (Q.ofInt 0) size,
             jsClamp (Q.sub pt.2 (Q.ofInt 1)) (Q.ofInt 0) size),
            (jsClamp (Q.add pt.1 (Q.ofInt 1)) (Q.ofInt 0) size,
             jsClamp (Q.add pt.2 (Q.ofInt 1)) (Q.ofInt 0) size),
            (jsClamp (Q.sub pt.1 (Q.ofInt 1)) (Q.ofInt 0) size,
             jsClamp (Q.add pt.2 (Q.ofInt 1)) (Q.ofInt 0) size) ]
        else clipped
      { poly := final, centroid := polygonCentroid final, num := 0 })


/-! ### Area-proportional allocation (`allocateByArea`, final revision) -/

inductive RKey
  | left
  | mid
  | right
deriving DecidableEq

structure Areas where
  left : Q
  mid : Q
  right : Q

def Areas.get (a : Areas) : RKey → Q
  | RKey.left => a.left
  | RKey.mid => a.mid
  | RKey.right => a.right

structure Alloc where
  left : ℤ
  mid : ℤ
  right : ℤ

instance : DecidableEq Alloc := fun a b =>
  decidable_of_iff (a.left = b.left ∧ a.mid = b.mid ∧ a.right = b.right)
    (by cases a; cases b; simp)

def Alloc.get (b : Alloc) : RKey → ℤ
  | RKey.left => b.left
  | RKey.mid => b.mid
  | RKey.right => b.right

def Alloc.add1 (b : Alloc) : RKey → Alloc
  | RKey.left => ⟨b.left + 1, b.mid, b.right⟩
  | RKey.mid => ⟨b.left, b.mid + 1, b.right⟩
  | RKey.right => ⟨b.left, b.mid, b.right + 1⟩

def Alloc.dec (b : Alloc) : RKey → Alloc
  | RKey.left => ⟨b.left - 1, b.mid, b.right⟩
  | RKey.mid => ⟨b.left, b.mid - 1, b.right⟩
  | RKey.right => ⟨b.left, b.mid, b.right - 1⟩

/-- Stable insertion into a list sorted by descending fractional part;
together with `sortFracDesc` this reproduces the (stable) JS
`frac.sort((p, q) => q.r - p.r)`. -/
def insertFracDesc (x : RKey × Q) : List (RKey × Q) → List (RKey × Q)
  | [] => [x]
  | y :: ys => if Q.blt y.2 x.2 then x :: y :: ys else y :: insertFracDesc x ys

def sortFracDesc (l : List (RKey × Q)) : List (RKey × Q) :=
  l.foldl (fun acc x => insertFracDesc x acc) []

/-- The `while (extra > 0)` round-robin distribution. -/
def roundRobin (sorted : List (RKey × Q)) : ℕ → ℕ → Alloc → Alloc
  | 0, _, b => b
  | e + 1, idx, b =>
      roundRobin sorted e (idx + 1)
        (b.add1 (sorted.getD (idx % sorted.length) (RKey.mid, Q.ofInt 0)).1)

/-- The defensive trim loop (`while (sum > totalN)`); fuelled recursion,
provably a no-op because the round-robin step already hits `totalN`. -/
def trimGo (areas : Areas) (totalN : ℤ) : ℕ → Alloc → Alloc
  | 0, b => b
  | f + 1, b =>
      if b.left + b.mid + b.right ≤ totalN then b
      else
        let k : RKey :=
          if Q.ble areas.mid areas.left ∧ Q.ble areas.right areas.left then RKey.left
          else if Q.ble areas.left areas.right ∧ Q.ble areas.mid areas.right then RKey.right
          else RKey.mid
        if 1 < b.get k then trimGo areas totalN f (b.dec k)
        else if 1 < b.mid then trimGo areas totalN f (b.dec RKey.mid)
        else if 1 < b.left then trimGo areas totalN f (b.dec RKey.left)
        else if 1 < b.right then trimGo areas totalN f (b.dec RKey.right)
        else b

def rkeys : List RKey := [RKey.left, RKey.mid, RKey.right]

/-- `sumA || 1` of `allocateByArea`. -/
def allocSumOr1 (areas : Areas) : Q :=
  let sumA := Q.add (Q.add areas.left areas.mid) areas.right
  if sumA.n = 0 then Q.ofInt 1 else sumA

/-- The proportional share `x = remain * areas[k] / (sumA || 1)`. -/
def allocX (totalN : ℤ) (areas : Areas) (k : RKey) : Q :=
  Q.div (Q.mul (Q.ofInt (totalN - 3)) (areas.get k)) (allocSumOr1 areas)

/-- `base` after reserving 1 per region and adding the floors. -/
def allocBase (totalN : ℤ) (areas : Areas) : Alloc :=
  ⟨1 + (allocX totalN areas RKey.left).floor,
   1 + (allocX totalN areas RKey.mid).floor,
   1 + (allocX totalN areas RKey.right).floor⟩

/-- The fractional parts, in key order. -/
def allocFrac (totalN : ℤ) (areas : Areas) : List (RKey × Q) :=
  rkeys.map (fun k =>
    (k, Q.sub (allocX totalN areas k) (Q.ofInt (allocX totalN areas k).floor)))

def Alloc.sum (b : Alloc) : ℤ := b.left + b.mid + b.right

/-- `base` after the largest-fraction round-robin distribution of `extra`. -/
def allocB2 (totalN : ℤ) (areas : Areas) : Alloc :=
  roundRobin (sortFracDesc (allocFrac totalN areas))
    (totalN - (allocBase totalN areas).sum).toNat 0 (allocBase totalN areas)

/-- `allocateByArea` (final revision; consumes no draws). -/
def allocateByArea (totalN : ℤ) (areas : Areas) : Alloc :=
  if totalN ≤ 0 then ⟨0, 0, 0⟩
  else if totalN = 1 then ⟨0, 1, 0⟩
  else if totalN = 2 then ⟨1, 0, 1⟩
  else
    trimGo areas totalN (allocB2 totalN areas).sum.toNat (allocB2 totalN areas)

/-! ### Motifs -/

/-- `motifMinPoints`. -/
def motifMinPoints (t : ℕ) : ℤ :=
  if t = 1 then 3 else if t = 2 then 4 else 3

structure MotifParam where
  mtype : ℕ
  mn : ℤ
  mgk : ℤ
  count : ℤ

/-- The feasible `(k, n)` grid shapes with `k*n <= mp`, in source
enumeration order. -/
def gridFeasible (mp : ℤ) : List (ℤ × ℤ) :=
  (List.range' 1 3).foldl
    (fun (acc : List (ℤ × ℤ)) (k : ℕ) =>
      (List.range' 3 3).foldl
        (fun (acc2 : List (ℤ × ℤ)) (n : ℕ) => if (k : ℤ) * (n : ℤ) ≤ mp then acc2 ++ [((k : ℤ), (n : ℤ))] else acc2)
        acc)
    []

/-- `chooseMotifParam` (one draw except the unreachable empty-grid case). -/
def chooseMotifParam (t : ℕ) (maxPoints : ℤ) (st : ℕ) : MotifParam × ℕ :=
  let mp : ℤ := max 0 (toInt32 maxPoints)
  if t = 1 then
    let nMax : ℤ := min 8 mp
    let rq := randNext st
    let n : ℤ := 3 + (Q.mul rq.1 (Q.ofInt (max 1 (nMax - 3 + 1)))).floor
    (⟨1, n, 0, n⟩, rq.2)
  else if t = 2 then
    let nMax : ℤ := min 8 (mp - 1)
    let rq := randNext st
    let n : ℤ := 3 + (Q.mul rq.1 (Q.ofInt (max 1 (nMax - 3 + 1)))).floor
    (⟨2, n, 0, n + 1⟩, rq.2)
  else
    let feasible := gridFeasible mp
    if feasible.isEmpty then (⟨3, 3, 1, 3⟩, st)
    else
      let rq := randNext st
      let pick := feasible.getD ((Q.mul rq.1 (Q.ofInt feasible.length)).floor.toNat) (1, 3)
      (⟨3, pick.2, pick.1, pick.1 * pick.2⟩, rq.2)

/-- Per-region generation context (the `region` descriptor objects of
`buildBoard`). -/
structure Region where
  key : RKey
  planes : List Plane
  poly : List P2
  inside : P2
  area : Q
  triCache : TriFan
  allocN : ℤ

/-- One grid cell of the type-3 motif: place a rotated lattice point and
track the largest radial extent. -/
def gridCellStep (E : Ext) (reg : Region) (c : P2) (x0 y0 spacing cosv sinv : Q) (row : ℕ)
    (acc2 : List P2 × Q) (col : ℕ) : List P2 × Q :=
  let lx := Q.add x0 (Q.mul (Q.ofInt (col : ℤ)) spacing)
  let ly := Q.add y0 (Q.mul (Q.ofInt (row : ℤ)) spacing)
  let rx := Q.sub (Q.mul lx cosv) (Q.mul ly sinv)
  let ry := Q.add (Q.mul lx sinv) (Q.mul ly cosv)
  let qq := clampToPlanesByBisection (Q.add c.1 rx, Q.add c.2 ry) reg.inside reg.planes
  (acc2.1 ++ [qq], Q.max acc2.2 (E.hypot rx ry))

/-- One row of the type-3 motif grid. -/
def gridRowStep (E : Ext) (reg : Region) (mn : ℤ) (c : P2) (x0 y0 spacing cosv sinv : Q)
    (acc : List P2 × Q) (row : ℕ) : List P2 × Q :=
  (List.range mn.toNat).foldl (gridCellStep E reg c x0 y0 spacing cosv sinv row) acc

/-- Ring/grid points of `buildMotifInRegion`, plus the avoid zone. -/
def buildMotifInRegion (E : Ext) (reg : Region) (param : MotifParam) (st : ℕ) :
    (List P2 × Zone) × ℕ :=
  let avg := E.sqrt (Q.div reg.area (Q.ofInt (max 1 reg.allocN)))
  let extra := Q.mul avg (Q.norm 9 10)
  let avoidMargin := Q.mul avg (Q.norm 23 20)
  let s1 := sampleUniformInConvexPoly reg.poly reg.triCache st
  let c1 := clampToPlanesByBisection s1.1 reg.inside reg.planes
  let extentTarget :=
    if param.mtype = 1 ∨ param.mtype = 2 then
      Q.mul avg (Q.add (Q.norm 12 5) (Q.mul (Q.norm 3 25) (Q.sub (Q.ofInt param.mn) (Q.ofInt 3))))
    else
      let spacingTarget := Q.mul avg (Q.norm 29 20)
      let halfW := Q.mul (Q.mul spacingTarget (Q.ofInt (param.mn - 1))) qHalf
      let halfH := Q.mul (Q.mul spacingTarget (Q.ofInt (param.mgk - 1))) qHalf
      E.hypot halfW halfH
  let c := moveTowardInsideToSatisfyMargin E.hypot c1 reg.inside reg.planes
    (Q.add extentTarget extra)
  let allow := Q.max (Q.ofInt 0) (Q.sub (mpdVal E.hypot c reg.planes) extra)
  let extent := Q.min extentTarget
    (if Q.blt qEps6 allow then allow else Q.mul extentTarget (Q.norm 3 5))
  let rphi := randNext s1.2
  let phi := Q.mul (Q.mul rphi.1 E.pi) (Q.ofInt 2)
  if param.mtype = 1 ∨ param.mtype = 2 then
    let r := extent
    let ring := (List.range param.mn.toNat).map
      (fun (i : ℕ) =>
        let ang := Q.add phi
          (Q.div (Q.mul (Q.mul (Q.ofInt 2) E.pi) (Q.ofInt (i : ℤ))) (Q.ofInt param.mn))
        clampToPlanesByBisection
          (Q.add c.1 (Q.mul (E.cos ang) r), Q.add c.2 (Q.mul (E.sin ang) r))
          reg.inside reg.planes)
    let pts := if param.mtype = 2 then ring ++ [(c.1, c.2)] else ring
    ((pts, ⟨c.1, c.2, Q.add r avoidMargin⟩), rphi.2)
  else
    let spacingTarget := Q.mul avg (Q.norm 29 20)
    let halfW0 := Q.mul (Q.mul spacingTarget (Q.ofInt (param.mn - 1))) qHalf
    let halfH0 := Q.mul (Q.mul spacingTarget (Q.ofInt (param.mgk - 1))) qHalf
    let e0 := E.hypot halfW0 halfH0
    let extent0 := if e0.n = 0 then Q.ofInt 1 else e0
    let scale := jsClamp (Q.div extent extent0) qHalf (Q.ofInt 1)
    let spacing := Q.mul spacingTarget scale
    let cosv := E.cos phi
    let sinv := E.sin phi
    let x0 := Q.mul (Q.mul (Q.ofInt (-(param.mn - 1))) qHalf) spacing
    let y0 := Q.mul (Q.mul (Q.ofInt (-(param.mgk - 1))) qHalf) spacing
    let cells := (List.range param.mgk.toNat).foldl
      (gridRowStep E reg param.mn c x0 y0 spacing cosv sinv)
      (([] : List P2), Q.ofInt 0)
    ((cells.1, ⟨c.1, c.2, Q.add cells.2 avoidMargin⟩), rphi.2)

/-! ### Macro/micro free-point generation -/

/-- `pickCentersMaximin`. -/
def maximinRound (centers : List P2) (cand : List P2) (st : ℕ) : (ℕ × Q) × ℕ :=
  (List.range cand.length).foldl
    (fun acc i =>
      let p := cand.getD i (Q.ofInt 0, Q.ofInt 0)
      let minD2 := centers.foldl
        (fun m cc =>
          let dx := Q.sub p.1 cc.1
          let dy := Q.sub p.2 cc.2
          let d2 := Q.add (Q.mul dx dx) (Q.mul dy dy)
          if Q.blt d2 m then d2 else m)
        qInf
      let rq := randNext acc.2
      let score := Q.add minD2 (Q.mul (Q.norm 1 1000000000000) rq.1)
      if Q.blt acc.1.2 score then ((i, score), rq.2) else (acc.1, rq.2))
    ((0, Q.ofInt (-1)), st)

def maximinGo (fuel : ℕ) (centers : List P2) (cand : List P2) (st : ℕ) :
    List P2 × ℕ :=
  match fuel with
  | 0 => (centers, st)
  | f + 1 =>
      let round := maximinRound centers cand st
      let bestIdx := round.1.1
      let centers2 := centers ++ [cand.getD bestIdx (Q.ofInt 0, Q.ofInt 0)]
      let cand2 := cand.eraseIdx bestIdx
      if cand2.isEmpty then (centers2, round.2)
      else maximinGo f centers2 cand2 round.2

def pickCentersMaximin (candidates : List P2) (kUse : ℕ) (st : ℕ) : List P2 × ℕ :=
  if kUse ≤ 1 then
    let rq := randNext st
    ([candidates.getD ((Q.mul rq.1 (Q.ofInt candidates.length)).floor.toNat)
        (Q.ofInt 0, Q.ofInt 0)], rq.2)
  else
    let rq := randNext st
    let idx0 := (Q.mul rq.1 (Q.ofInt candidates.length)).floor.toNat
    let c0 := candidates.getD idx0 (Q.ofInt 0, Q.ofInt 0)
    maximinGo (kUse - 1) [c0] (candidates.eraseIdx idx0) rq.2

/-- `generateNonStructPoints`. -/
def generateNonStructPoints (E : Ext) (macroCount microCount : ℕ) (reg : Region)
    (zones : List Zone) (alpha : Q) (st : ℕ) : List P2 × ℕ :=
  let macroStep : List P2 × ℕ → List P2 × ℕ := fun acc =>
    let s := sampleUniformInConvexPoly reg.poly reg.triCache acc.2
    let z := pushOutOfZones E s.1 zones s.2
    let p := clampToPlanesByBisection z.1 reg.inside reg.planes
    (acc.1 ++ [p], z.2)
  let macros := (List.range macroCount).foldl (fun acc _ => macroStep acc) ([], st)
  let rqK := randNext macros.2
  let bigK : ℤ := max 2 (min 4 (2 + (Q.mul rqK.1 (Q.ofInt 3)).floor))
  let kUse : ℕ := min bigK.toNat (max 1 (if macroCount = 0 then 1 else macroCount))
  let candN : ℕ := max 32 (kUse * 16)
  let cands := (List.range candN).foldl
    (fun acc _ =>
      let s := sampleUniformInConvexPoly reg.poly reg.triCache acc.2
      let z := pushOutOfZones E s.1 zones s.2
      let p := clampToPlanesByBisection z.1 reg.inside reg.planes
      (acc.1 ++ [p], z.2))
    (([] : List P2), rqK.2)
  let centers := pickCentersMaximin cands.1 kUse cands.2
  let micros := (List.range microCount).foldl
    (fun acc _ =>
      let s := sampleUniformInConvexPoly reg.poly reg.triCache acc.2
      let p := clampToPlanesByBisection s.1 reg.inside reg.planes
      let rqc := randNext s.2
      let cc := centers.1.getD ((Q.mul rqc.1 (Q.ofInt centers.1.length)).floor.toNat)
        (Q.ofInt 0, Q.ofInt 0)
      let rql := randNext rqc.2
      let lam := E.pow rql.1 alpha
      let qx := Q.add cc.1 (Q.mul lam (Q.sub p.1 cc.1))
      let qy := Q.add cc.2 (Q.mul lam (Q.sub p.2 cc.2))
      let z := pushOutOfZones E (qx, qy) zones rql.2
      let q2 := clampToPlanesByBisection z.1 reg.inside reg.planes
      (acc.1 ++ [q2], z.2))
    (macros.1, centers.2)
  micros

/-! ### Motif plan -/

/-- `pickMotifType123` (one draw). -/
def pickMotifType123 (st : ℕ) : ℕ × ℕ :=
  let rq := randNext st
  let r := (Q.mul rq.1 (Q.ofInt 3)).floor
  (if r = 0 then 1 else if r = 1 then 2 else 3, rq.2)

/-- `buildMotifPlan` (the `P === 100` branch shuffles `[1,2,3]` with the
same inline Fisher-Yates loop as `shuffleInPlace`). -/
def buildMotifPlan (P : ℤ) (st : ℕ) : List ℕ × ℕ :=
  if P = 20 then
    let t := pickMotifType123 st
    ([t.1], t.2)
  else if P = 50 then
    let rq := randNext st
    let t : ℕ := if Q.blt rq.1 qHalf then 1 else 2
    ([3, t], rq.2)
  else if P = 100 then
    shuffleInPlace 0 [1, 2, 3] st
  else if P ≤ 30 then
    let t := pickMotifType123 st
    ([t.1], t.2)
  else if P ≤ 70 then
    let rq := randNext st
    let t : ℕ := if Q.blt rq.1 qHalf then 1 else 2
    ([3, t], rq.2)
  else
    let t := pickMotifType123 st
    ([t.1, t.1, t.1], t.2)


/-! ### `buildBoard` (final revision), split into named stages -/

structure Config where
  seedStr : String
  pieceCount : ℤ
  relaxIters : Option ℤ

structure Board where
  cells : List Cell

instance : DecidableEq Board := fun a b =>
  decidable_of_iff (a.cells = b.cells) (by cases a; cases b; simp)

/-- `N = Math.max(1, config.pieceCount | 0)`. -/
def boardN (cfg : Config) : ℕ := (max 1 (toInt32 cfg.pieceCount)).toNat

/-- Effective relaxation iteration count (default 1; clamped at 0). -/
def boardRelaxIters (cfg : Config) : ℕ :=
  match cfg.relaxIters with
  | none => 1
  | some r => (max 0 (toInt32 r)).toNat

/-- `microFrac = 0.88`. -/
def microFracC : Q := Q.norm 22 25
/-- `alpha = 3.0`. -/
def alphaC : Q := Q.ofInt 3
/-- `minDistFactor = 0.6`. -/
def minDistFactorC : Q := Q.norm 3 5

/-- Stable descending sort of the region list by area
(JS `regions.slice().sort((a, b) => b.area - a.area)`). -/
def insertRegDesc (x : Region) : List Region → List Region
  | [] => [x]
  | y :: ys => if Q.blt y.area x.area then x :: y :: ys else y :: insertRegDesc x ys

def sortRegionsDesc (l : List Region) : List Region :=
  l.foldl (fun acc x => insertRegDesc x acc) []

/-- Everything `buildBoard` computes up to (and including) the region
descriptors: cut lines, plane sets, polygons, areas, interior anchors,
allocation. -/
structure Stage1 where
  lines : Lines
  rp : RegionPlanes
  regionL : Region
  regionM : Region
  regionR : Region
  st : ℕ

def stage1 (E : Ext) (now : String) (cfg : Config) (size : Q) : Stage1 :=
  let st0 := makeRng now cfg.seedStr
  let gl := generateParallelLines E size st0
  let rp := makeRegionPlanes size gl.1
  let polyL := regionPolyFromPlanes size rp.left
  let polyM := regionPolyFromPlanes size rp.mid
  let polyR := regionPolyFromPlanes size rp.right
  let areaL := polygonArea polyL
  let areaM := polygonArea polyM
  let areaR := polygonArea polyR
  let alloc := allocateByArea (boardN cfg : ℤ) ⟨areaL, areaM, areaR⟩
  { lines := gl.1
    rp := rp
    regionL := ⟨RKey.left, rp.left, polyL, polygonCentroid polyL, areaL,
      makeFanTriangles polyL, alloc.left⟩
    regionM := ⟨RKey.mid, rp.mid, polyM, polygonCentroid polyM, areaM,
      makeFanTriangles polyM, alloc.mid⟩
    regionR := ⟨RKey.right, rp.right, polyR, polygonCentroid polyR, areaR,
      makeFanTriangles polyR, alloc.right⟩
    st := gl.2 }

/-- The motif plan drawn by `buildBoard` (stage 4 of the source). -/
def motifPlanOf (E : Ext) (now : String) (cfg : Config) (size : Q) : List ℕ × ℕ :=
  buildMotifPlan (boardN cfg : ℤ) (stage1 E now cfg size).st

/-- The motif target regions, by descending area. -/
def targetRegionsOf (E : Ext) (now : String) (cfg : Config) (size : Q) : List Region :=
  let s1 := stage1 E now cfg size
  let plan := (motifPlanOf E now cfg size).1
  (sortRegionsDesc [s1.regionL, s1.regionM, s1.regionR]).take (min plan.length 3)

/-- Accumulator of the sequential budgeted motif assignment. -/
structure MotifAcc where
  params : List MotifParam
  usedS : ℤ
  structL : List P2
  structM : List P2
  structR : List P2
  zonesL : List Zone
  zonesM : List Zone
  zonesR : List Zone
  st : ℕ

def MotifAcc.structOf (a : MotifAcc) : RKey → List P2
  | RKey.left => a.structL
  | RKey.mid => a.structM
  | RKey.right => a.structR

def MotifAcc.zonesOf (a : MotifAcc) : RKey → List Zone
  | RKey.left => a.zonesL
  | RKey.mid => a.zonesM
  | RKey.right => a.zonesR

def MotifAcc.store (a : MotifAcc) (k : RKey) (pts : List P2) (z : Zone) : MotifAcc :=
  match k with
  | RKey.left => { a with structL := pts, zonesL := a.zonesL ++ [z] }
  | RKey.mid => { a with structM := pts, zonesM := a.zonesM ++ [z] }
  | RKey.right => { a with structR := pts, zonesR := a.zonesR ++ [z] }

/-- Minimum points still owed to the motifs of `plan` (the `minRemain` loop). -/
def minSum (plan : List ℕ) : ℤ := plan.foldl (fun s u => s + motifMinPoints u) 0

/-- The `maxPoints` ceiling of one assignment step: the per-region capacity
(`capMax`) capped by the remaining global budget (`budgetMax`), each floored
at the type minimum. -/
def motifMaxPts (Smax : ℤ) (t : ℕ) (rest : List ℕ) (reg : Region) (used : ℤ) : ℤ :=
  let minP := motifMinPoints t
  let cap : ℤ := max 0 (toInt32 reg.allocN)
  let leave : ℤ := min 2 (max 0 (cap - minP))
  let capMax : ℤ := max minP (cap - leave)
  let budgetMax : ℤ := max minP (Smax - used - minSum rest)
  min capMax budgetMax

/-- The assignment loop: one motif per target region, reserving the minimum
points still owed to later motifs (`minRemain`), stopping when target
regions run out. -/
def assignGo (E : Ext) (Smax : ℤ) : List ℕ → List Region → MotifAcc → MotifAcc
  | [], _, acc => acc
  | _ :: _, [], acc => acc
  | t :: rest, reg :: regs, acc =>
      let maxPts : ℤ := motifMaxPts Smax t rest reg acc.usedS
      let ch := chooseMotifParam t maxPts acc.st
      let built := buildMotifInRegion E reg ch.1 ch.2
      assignGo E Smax rest regs
        { (acc.store reg.key built.1.1 built.1.2) with
            params := acc.params ++ [ch.1]
            usedS := acc.usedS + ch.1.count
            st := built.2 }

/-- `Smax = Math.floor(0.4 * N)`. -/
def smaxOf (cfg : Config) : ℤ := (Q.mul (Q.norm 2 5) (Q.ofInt (boardN cfg : ℤ))).floor

/-- The completed motif assignment of `buildBoard` (stage 5 of the source). -/
def motifStage (E : Ext) (now : String) (cfg : Config) (size : Q) : MotifAcc :=
  let plan := motifPlanOf E now cfg size
  assignGo E (smaxOf cfg) plan.1 (targetRegionsOf E now cfg size)
    ⟨[], 0, [], [], [], [], [], [], plan.2⟩

/-- `buildRegionPoints` (stage 6 of the source). -/
def buildRegionPoints (E : Ext) (acc : MotifAcc) (reg : Region) (st : ℕ) :
    (List P2 × List Bool × List Zone) × ℕ :=
  let structPts := acc.structOf reg.key
  let S := structPts.length
  let m : ℤ := max 0 (toInt32 reg.allocN)
  let zones := acc.zonesOf reg.key
  let remain : ℤ := max 0 (m - S)
  let micro0 : ℤ := Q.round (Q.mul (Q.ofInt remain) microFracC)
  let microA : ℤ := max 0 (min remain micro0)
  let macroA : ℤ := remain - microA
  let counts : ℤ × ℤ :=
    if 0 < remain ∧ macroA = 0 then (1, remain - 1) else (macroA, microA)
  let ns := generateNonStructPoints E counts.1.toNat counts.2.toNat reg zones alphaC st
  let pts := structPts ++ ns.1
  let mask := List.replicate S true ++ List.replicate (pts.length - S) false
  let pts2 := pts.map (fun p => clampToPlanesByBisection p reg.inside reg.planes)
  let ng := nudgeDuplicatesWithinPlanes pts2 reg.planes reg.inside ns.2 (some mask)
  ((ng.1, mask, zones), ng.2)

/-- The three finalized region point sets (left, mid, right, in call order),
with the RNG state after all of them. -/
def regionsFinal (E : Ext) (now : String) (cfg : Config) (size : Q) :
    ((List P2 × List Bool) × (List P2 × List Bool) × (List P2 × List Bool)) × ℕ :=
  let s1 := stage1 E now cfg size
  let acc := motifStage E now cfg size
  let iters := boardRelaxIters cfg
  let bl := buildRegionPoints E acc s1.regionL acc.st
  let bm := buildRegionPoints E acc s1.regionM bl.2
  let br := buildRegionPoints E acc s1.regionR bm.2
  let ll := lloydRelaxInRegionAnchored E (some bl.1.2.1) size s1.regionL.planes
    s1.regionL.inside bl.1.2.2 iters bl.1.1 br.2
  let lm := lloydRelaxInRegionAnchored E (some bm.1.2.1) size s1.regionM.planes
    s1.regionM.inside bm.1.2.2 iters bm.1.1 ll.2
  let lrr := lloydRelaxInRegionAnchored E (some br.1.2.1) size s1.regionR.planes
    s1.regionR.inside br.1.2.2 iters br.1.1 lm.2
  let el := enforceMinDistanceAnchored E ll.1 (some bl.1.2.1)
    (minDistFromArea E s1.regionL.area ll.1.length minDistFactorC)
    s1.regionL.planes s1.regionL.inside bl.1.2.2 lrr.2
  let em := enforceMinDistanceAnchored E lm.1 (some bm.1.2.1)
    (minDistFromArea E s1.regionM.area lm.1.length minDistFactorC)
    s1.regionM.planes s1.regionM.inside bm.1.2.2 el.2
  let er := enforceMinDistanceAnchored E lrr.1 (some br.1.2.1)
    (minDistFromArea E s1.regionR.area lrr.1.length minDistFactorC)
    s1.regionR.planes s1.regionR.inside br.1.2.2 em.2
  (((el.1, bl.1.2.1), (em.1, bm.1.2.1), (er.1, br.1.2.1)), er.2)

/-- The deterministic padding cell used by the count fixup. -/
def padCell (E : Ext) (now : String) (cfg : Config) (size : Q) : Cell :=
  let s1 := stage1 E now cfg size
  let fb := makeFallbackTriangle s1.regionM.inside size
  let clipped := (clipPolyByPlanes fb s1.rp.mid).getD fb
  ⟨clipped, polygonCentroid clipped, 0⟩

/-- All cells before the count fixup and numbering. -/
def rawCells (E : Ext) (now : String) (cfg : Config) (size : Q) : List Cell × ℕ :=
  let s1 := stage1 E now cfg size
  let rf := regionsFinal E now cfg size
  let cl := buildCellsForRegion E rf.1.1.1 size s1.regionL.planes
  let cm := buildCellsForRegion E rf.1.2.1.1 size s1.regionM.planes
  let cr := buildCellsForRegion E rf.1.2.2.1 size s1.regionR.planes
  (cl ++ cm ++ cr, rf.2)

/-- The truncate/pad count fixup (`while` loops of stage 9). -/
def fixupCells (cells : List Cell) (n : ℕ) (pad : Cell) : List Cell :=
  if n ≤ cells.length then cells.take n
  else cells ++ List.replicate (n - cells.length) pad

/-- `buildBoard(config, size)`. -/
def buildBoard (E : Ext) (now : String) (cfg : Config) (size : Q) : Board :=
  let n := boardN cfg
  let rc := rawCells E now cfg size
  let cells := fixupCells rc.1 n (padCell E now cfg size)
  let nums := shuffleInPlace 0 (List.range' 1 n) rc.2
  ⟨List.zipWith (fun c k => { c with num := k }) cells nums.1⟩


/-! ### Basic facts about `buildBoard`'s output shape -/

theorem toInt32_of_small (z : ℤ) (h0 : 0 ≤ z) (h1 : z < 2147483648) : toInt32 z = z := by
  unfold toInt32
  simp only [U32]
  split <;> omega

theorem toInt32_of_neg_small (z : ℤ) (h0 : -2147483648 < z) (h1 : z ≤ 0) : toInt32 z = z := by
  unfold toInt32
  simp only [U32]
  split <;> omega

theorem fixupCells_length (cells : List Cell) (n : ℕ) (pad : Cell) :
    (fixupCells cells n pad).length = n := by
  unfold fixupCells
  by_cases h : n ≤ cells.length
  · rw [if_pos h]
    simp [List.length_take, Nat.min_eq_left h]
  · rw [if_neg h]
    simp only [List.length_append, List.length_replicate]
    omega

theorem shuffled_nums_length (n : ℕ) (st : ℕ) :
    (shuffleInPlace 0 (List.range' 1 n) st).1.length = n := by
  have h := shuffleInPlace_perm 0 (List.range' 1 n) st
  rw [h.length_eq]
  simp

/-- Mapping the second projection over a `zipWith` that stores it. -/
theorem map_num_zipWith (cells : List Cell) (nums : List ℕ) :
    (List.zipWith (fun c k => { c with num := k }) cells nums).map Cell.num =
      nums.take cells.length := by
  induction cells generalizing nums with
  | nil => simp
  | cons c t ih =>
      cases nums with
      | nil => simp
      | cons k ks => simp [ih]

/-- The number of cells `buildBoard` returns is always `max(1, pieceCount|0)`. -/
theorem buildBoard_length (E : Ext) (now : String) (cfg : Config) (size : Q) :
    (buildBoard E now cfg size).cells.length = boardN cfg := by
  unfold buildBoard
  simp only [List.length_zipWith, fixupCells_length, shuffled_nums_length]
  omega

/-- The label multiset `buildBoard` assigns is always a permutation of
`1..max(1, pieceCount|0)`. -/
theorem buildBoard_labels_perm (E : Ext) (now : String) (cfg : Config) (size : Q) :
    ((buildBoard E now cfg size).cells.map Cell.num).Perm
      (List.range' 1 (boardN cfg)) := by
  unfold buildBoard
  simp only
  rw [map_num_zipWith, fixupCells_length]
  have hlen : (shuffleInPlace 0 (List.range' 1 (boardN cfg)) (rawCells E now cfg size).2).1.length
      = boardN cfg := shuffled_nums_length _ _
  rw [List.take_of_length_le (le_of_eq hlen)]
  exact shuffleInPlace_perm 0 _ _


/-! ### Concrete instantiation used by witnesses and counterexamples -/

/-- A concrete external-function environment: constant stubs for the
transcendentals (any values are admissible for the structural claims) and a
Voronoi provider that always reports a degenerate cell. -/
def ext0 : Ext :=
  { pi := Q.ofInt 0
    cos := fun _ => Q.ofInt 0
    sin := fun _ => Q.ofInt 0
    sqrt := fun _ => Q.ofInt 0
    hypot := fun _ _ => Q.ofInt 1
    pow := fun _ _ => Q.ofInt 0
    voronoi := fun _ _ _ => none }

/-- An environment whose Voronoi provider reports a cell with one vertex
`1e-10` beyond the right edge of the square: within the clip tolerance, so
the vertex survives the hard clip. -/
def extBad : Ext :=
  { ext0 with
      voronoi := fun _ _ _ =>
        some [ (Q.add (Q.ofInt 1000) (Q.norm 1 10000000000), Q.ofInt 500),
               (Q.ofInt 0, Q.ofInt 0),
               (Q.ofInt 0, Q.ofInt 600) ] }

/-- Exact containment of a point in `[0, size] × [0, size]`. -/
def inSquareB (size : Q) (p : P2) : Bool :=
  Q.ble (Q.ofInt 0) p.1 && Q.ble p.1 size && Q.ble (Q.ofInt 0) p.2 && Q.ble p.2 size

/-! ### Claim C1 -/

/-- C1 counterexample: at `pieceCount = 2^31` (a positive integer) the
`| 0` coercion wraps to `-2^31`, `N` clamps to 1, and the board has one
cell, not `2^31`. -/
theorem buildBoard_count_fails_at_two_pow_31 :
    (buildBoard ext0 "0" ⟨"abc", 2147483648, some 0⟩ (Q.ofInt 1000)).cells.length
      ≠ 2147483648 := by
  rw [buildBoard_length]
  decide

/-- C1 (amended): for every positive `pieceCount < 2^31`, `buildBoard`
returns exactly `pieceCount` cells and the `num` labels are a permutation
of `1..pieceCount`. -/
theorem buildBoard_count_and_labels (E : Ext) (now : String) (cfg : Config) (size : Q)
    (h0 : 0 < cfg.pieceCount) (h1 : cfg.pieceCount < 2147483648) :
    (buildBoard E now cfg size).cells.length = cfg.pieceCount.toNat ∧
      ((buildBoard E now cfg size).cells.map Cell.num).Perm
        (List.range' 1 cfg.pieceCount.toNat) := by
  have hn : boardN cfg = cfg.pieceCount.toNat := by
    unfold boardN
    rw [toInt32_of_small _ (le_of_lt h0) h1]
    omega
  refine ⟨?_, ?_⟩
  · rw [buildBoard_length, hn]
  · have := buildBoard_labels_perm E now cfg size
    rwa [hn] at this

/-- Witness for C1 at `pieceCount = 3`. -/
theorem buildBoard_count_and_labels_witness :
    (buildBoard ext0 "0" ⟨"a", 3, some 0⟩ (Q.ofInt 1000)).cells.length = (3 : ℤ).toNat ∧
      ((buildBoard ext0 "0" ⟨"a", 3, some 0⟩ (Q.ofInt 1000)).cells.map Cell.num).Perm
        (List.range' 1 (3 : ℤ).toNat) :=
  buildBoard_count_and_labels ext0 "0" ⟨"a", 3, some 0⟩ (Q.ofInt 1000)
    (by decide) (by decide)

/-! ### Claim C5 -/

/-- C5 counterexample: at `pieceCount = 0` no error is reported; a
1-cell board is generated. -/
theorem buildBoard_generates_at_zero :
    (buildBoard ext0 "0" ⟨"abc", 0, some 0⟩ (Q.ofInt 1000)).cells.length = 1 := by
  rw [buildBoard_length]
  decide

/-- C5 (amended): `buildBoard` performs no validation; for every
`pieceCount` in `(-2^31, 0]` it silently clamps `N` to 1 and returns a
1-cell board instead of reporting an error. -/
theorem buildBoard_clamps_nonpositive (E : Ext) (now : String) (cfg : Config) (size : Q)
    (h0 : -2147483648 < cfg.pieceCount) (h1 : cfg.pieceCount ≤ 0) :
    (buildBoard E now cfg size).cells.length = 1 := by
  rw [buildBoard_length]
  unfold boardN
  rw [toInt32_of_neg_small _ h0 h1]
  omega

/-- Witness for C5 at `pieceCount = -5`. -/
theorem buildBoard_clamps_nonpositive_witness :
    (buildBoard ext0 "0" ⟨"abc", -5, some 0⟩ (Q.ofInt 1000)).cells.length = 1 :=
  buildBoard_clamps_nonpositive ext0 "0" ⟨"abc", -5, some 0⟩ (Q.ofInt 1000)
    (by decide) (by decide)


/-! ### Claim C4: one valid cell per site -/

theorem clipPolyByPlane_ge3 (poly : List P2) (pl : Plane) (out : List P2)
    (h : clipPolyByPlane poly pl = some out) : 3 ≤ out.length := by
  unfold clipPolyByPlane at h
  split at h
  · exact absurd h (by simp)
  · dsimp only at h
    split at h
    · cases h
      assumption
    · exact absurd h (by simp)

theorem clipFold_ge3 (planes : List Plane) :
    ∀ (acc : Option (List P2)) (out : List P2),
      planes.foldl
        (fun acc pl => match acc with
          | none => none
          | some p => clipPolyByPlane p pl)
        acc = some out →
      (∀ p, acc = some p → 3 ≤ p.length) → 3 ≤ out.length := by
  induction planes with
  | nil =>
      intro acc out h hacc
      simp only [List.foldl_nil] at h
      exact hacc out h
  | cons pl rest ih =>
      intro acc out h hacc
      simp only [List.foldl_cons] at h
      cases acc with
      | none =>
          refine ih none out ?_ (by intro p hp; exact absurd hp (by simp))
          exact h
      | some p =>
          refine ih (clipPolyByPlane p pl) out h ?_
          intro q hq
          exact clipPolyByPlane_ge3 p pl q hq

theorem clipPolyByPlanes_ge3 (planes : List Plane) (poly : List P2) (out : List P2)
    (h : clipPolyByPlanes poly planes = some out) (hp : 3 ≤ poly.length) :
    3 ≤ out.length := by
  unfold clipPolyByPlanes at h
  refine clipFold_ge3 planes (some poly) out h ?_
  intro q hq
  cases hq
  exact hp

theorem makeFallbackTriangle_length (pt : P2) (size : Q) :
    (makeFallbackTriangle pt size).length = 3 := rfl

theorem cellPolyFor_ge3 (E : Ext) (points : List P2) (size : Q) (planes : List Plane)
    (i : ℕ) : 3 ≤ (cellPolyFor E points size planes i).length := by
  unfold cellPolyFor
  dsimp only
  have hclean : 3 ≤ (match cleanD3Polygon (E.voronoi points size i) with
      | none => makeFallbackTriangle (points.getD i (Q.ofInt 0, Q.ofInt 0)) size
      | some cl =>
          if cl.length < 3 then makeFallbackTriangle (points.getD i (Q.ofInt 0, Q.ofInt 0)) size
          else cl).length := by
    split
    · rw [makeFallbackTriangle_length]
    · split
      · rw [makeFallbackTriangle_length]
      · omega
  split
  · case _ clipped heq =>
      split
      · split
        · case _ c2 heq2 =>
            exact clipPolyByPlanes_ge3 planes _ c2 heq2 (by rw [makeFallbackTriangle_length])
        · rw [makeFallbackTriangle_length]
      · case _ h3 => omega
  · split
    · case _ c2 heq2 =>
        exact clipPolyByPlanes_ge3 planes _ c2 heq2 (by rw [makeFallbackTriangle_length])
    · rw [makeFallbackTriangle_length]

/-- C4: `buildCellsForRegion` returns exactly one cell per input site, and
every returned cell polygon has at least three vertices, for every site
list, plane set, and Voronoi provider. -/
theorem buildCellsForRegion_one_cell_per_site (E : Ext) (points : List P2) (size : Q)
    (planes : List Plane) :
    (buildCellsForRegion E points size planes).length = points.length ∧
      ∀ c ∈ buildCellsForRegion E points size planes, 3 ≤ c.poly.length := by
  constructor
  · unfold buildCellsForRegion
    simp
  · intro c hc
    unfold buildCellsForRegion at hc
    simp only [List.mem_map, List.mem_range] at hc
    obtain ⟨i, _, hceq⟩ := hc
    subst hceq
    simp only
    by_cases h3 : (cellPolyFor E points size planes i).length < 3
    · rw [if_pos h3]
      simp
    · rw [if_neg h3]
      exact cellPolyFor_ge3 E points size planes i

/-! ### Seed handling: congruence of `buildBoard` in the RNG seed -/

theorem makeRng_of_trim_eq (now1 now2 s1 s2 : String) (he : jsTrim s1 = jsTrim s2)
    (hne : jsTrim s1 ≠ "") : makeRng now1 s1 = makeRng now2 s2 := by
  unfold makeRng effectiveSeed
  have hpos : 0 < (jsTrim s1).length := by
    cases hs : jsTrim s1 with
    | mk data =>
        cases data with
        | nil => exact absurd hs hne
        | cons a t => simp [String.length, hs]
  rw [if_pos (by omega), he, if_pos (by rw [← he]; omega)]

theorem stage1_congr (E : Ext) (size : Q) (now1 now2 s1 s2 : String) (p : ℤ)
    (r : Option ℤ) (hm : makeRng now1 s1 = makeRng now2 s2) :
    stage1 E now1 ⟨s1, p, r⟩ size = stage1 E now2 ⟨s2, p, r⟩ size := by
  unfold stage1 boardN
  rw [hm]

theorem buildBoard_congr (E : Ext) (size : Q) (now1 now2 s1 s2 : String) (p : ℤ)
    (r : Option ℤ) (hm : makeRng now1 s1 = makeRng now2 s2) :
    buildBoard E now1 ⟨s1, p, r⟩ size = buildBoard E now2 ⟨s2, p, r⟩ size := by
  have h1 := stage1_congr E size now1 now2 s1 s2 p r hm
  have hN : boardN ⟨s1, p, r⟩ = boardN ⟨s2, p, r⟩ := rfl
  have hRI : boardRelaxIters ⟨s1, p, r⟩ = boardRelaxIters ⟨s2, p, r⟩ := rfl
  have h2 : motifPlanOf E now1 ⟨s1, p, r⟩ size = motifPlanOf E now2 ⟨s2, p, r⟩ size := by
    unfold motifPlanOf
    rw [h1, hN]
  have h3 : targetRegionsOf E now1 ⟨s1, p, r⟩ size = targetRegionsOf E now2 ⟨s2, p, r⟩ size := by
    unfold targetRegionsOf
    rw [h1, h2]
  have h4 : motifStage E now1 ⟨s1, p, r⟩ size = motifStage E now2 ⟨s2, p, r⟩ size := by
    unfold motifStage smaxOf
    rw [h2, h3, hN]
  have h5 : regionsFinal E now1 ⟨s1, p, r⟩ size = regionsFinal E now2 ⟨s2, p, r⟩ size := by
    unfold regionsFinal
    rw [h1, h4, hRI]
  have h6 : padCell E now1 ⟨s1, p, r⟩ size = padCell E now2 ⟨s2, p, r⟩ size := by
    unfold padCell
    rw [h1]
  have h7 : rawCells E now1 ⟨s1, p, r⟩ size = rawCells E now2 ⟨s2, p, r⟩ size := by
    unfold rawCells
    rw [h1, h5]
  unfold buildBoard
  rw [h7, h6, hN]


/-! ### Claim C10: seed trimming -/

/-- C10: seed strings equal after trimming (and non-blank) give identical
RNG streams, hence identical boards; a whitespace-only seed behaves exactly
like the empty seed (both fall back to the time string). -/
theorem seed_trim_equivalence :
    (∀ (E : Ext) (size : Q) (now1 now2 s1 s2 : String) (p : ℤ) (r : Option ℤ),
        jsTrim s1 = jsTrim s2 → jsTrim s1 ≠ "" →
        makeRng now1 s1 = makeRng now2 s2 ∧
          buildBoard E now1 ⟨s1, p, r⟩ size = buildBoard E now2 ⟨s2, p, r⟩ size) ∧
    (∀ (now s : String), jsTrim s = "" → makeRng now s = makeRng now "") := by
  constructor
  · intro E size now1 now2 s1 s2 p r he hne
    have hm := makeRng_of_trim_eq now1 now2 s1 s2 he hne
    exact ⟨hm, buildBoard_congr E size now1 now2 s1 s2 p r hm⟩
  · intro now s h
    unfold makeRng effectiveSeed
    rw [h]
    norm_num [jsTrim, String.length]

/-- Witness for C10: `" ab "` and `"ab"` agree; `"  "` falls back like `""`. -/
theorem seed_trim_equivalence_witness :
    (makeRng "1" " ab " = makeRng "2" "ab" ∧
      buildBoard ext0 "1" ⟨" ab ", 3, some 0⟩ (Q.ofInt 1000) =
        buildBoard ext0 "2" ⟨"ab", 3, some 0⟩ (Q.ofInt 1000)) ∧
    makeRng "7" "  " = makeRng "7" "" :=
  ⟨seed_trim_equivalence.1 ext0 (Q.ofInt 1000) "1" "2" " ab " "ab" 3 (some 0)
      (by decide) (by decide),
    seed_trim_equivalence.2 "7" "  " (by decide)⟩

/-! ### Claim C2: determinism -/

/-- C2 (amended): for every configuration whose seed string is non-blank
after trimming, the board is a pure function of
`(seedStr, pieceCount, relaxIters, boardSize)`; the clock value (`Date.now`,
the only other run-dependent input) does not influence the output, so two
independent runs are bit-identical.  (For blank seeds the time fallback
makes two runs differ; see the counterexample.) -/
theorem buildBoard_deterministic (E : Ext) (size : Q) (now1 now2 s : String) (p : ℤ)
    (r : Option ℤ) (h : jsTrim s ≠ "") :
    buildBoard E now1 ⟨s, p, r⟩ size = buildBoard E now2 ⟨s, p, r⟩ size :=
  buildBoard_congr E size now1 now2 s s p r (makeRng_of_trim_eq now1 now2 s s rfl h)

/-- C2 counterexample: with a blank seed the RNG falls back to the clock
string (`String(Date.now())`), so two runs at different times produce
different boards for the same `(seedStr, pieceCount, relaxIters, boardSize)`. -/
theorem buildBoard_blank_seed_differs :
    buildBoard ext0 "0" ⟨"", 1, some 0⟩ (Q.ofInt 1000) ≠
      buildBoard ext0 "1" ⟨"", 1, some 0⟩ (Q.ofInt 1000) := by decide

/-- Witness for C2 with seed `"abc"` and two different clock values. -/
theorem buildBoard_deterministic_witness :
    buildBoard ext0 "1111" ⟨"abc", 3, some 0⟩ (Q.ofInt 1000) =
      buildBoard ext0 "2222" ⟨"abc", 3, some 0⟩ (Q.ofInt 1000) :=
  buildBoard_deterministic ext0 (Q.ofInt 1000) "1111" "2222" "abc" 3 (some 0) (by decide)


/-! ### Claim C8: area-proportional allocation -/

theorem add1_sum (b : Alloc) (k : RKey) : (b.add1 k).sum = b.sum + 1 := by
  cases k <;> simp [Alloc.add1, Alloc.sum] <;> ring

theorem add1_ge (b : Alloc) (k k2 : RKey) : b.get k2 ≤ (b.add1 k).get k2 := by
  cases k <;> cases k2 <;> simp [Alloc.add1, Alloc.get] <;> omega

theorem roundRobin_sum (sorted : List (RKey × Q)) :
    ∀ (e idx : ℕ) (b : Alloc), (roundRobin sorted e idx b).sum = b.sum + e := by
  intro e
  induction e with
  | zero => intro idx b; simp [roundRobin]
  | succ k ih =>
      intro idx b
      unfold roundRobin
      rw [ih, add1_sum]
      omega

theorem roundRobin_ge (sorted : List (RKey × Q)) :
    ∀ (e idx : ℕ) (b : Alloc) (k : RKey), b.get k ≤ (roundRobin sorted e idx b).get k := by
  intro e
  induction e with
  | zero => intro idx b k; simp [roundRobin]
  | succ j ih =>
      intro idx b k
      unfold roundRobin
      exact le_trans (add1_ge b _ k) (ih _ _ k)

theorem allocX_val (totalN : ℤ) (areas : Areas) (k : RKey)
    (hl : 0 < areas.left.val) (hm : 0 < areas.mid.val) (hr : 0 < areas.right.val) :
    (allocX totalN areas k).val =
      ((totalN - 3 : ℤ) : ℚ) * (areas.get k).val /
        (areas.left.val + areas.mid.val + areas.right.val) := by
  have hsumv : (Q.add (Q.add areas.left areas.mid) areas.right).val =
      areas.left.val + areas.mid.val + areas.right.val := by
    rw [Q.val_add, Q.val_add]
  have hsumpos : 0 < (Q.add (Q.add areas.left areas.mid) areas.right).val := by
    rw [hsumv]; linarith
  have hsumn : (Q.add (Q.add areas.left areas.mid) areas.right).n ≠ 0 := by
    intro h0
    have : (Q.add (Q.add areas.left areas.mid) areas.right).val = 0 := by
      simp [Q.val, h0]
    linarith
  have hOr1 : allocSumOr1 areas = Q.add (Q.add areas.left areas.mid) areas.right := by
    unfold allocSumOr1
    simp only [if_neg hsumn]
  unfold allocX
  rw [hOr1, Q.val_div _ _ (ne_of_gt hsumpos), Q.val_mul, Q.val_ofInt, hsumv]

/-- C8: for `N ≥ 3` and positive region areas the allocation sums exactly
to `N` with at least one piece per region; `N = 1` goes entirely to the mid
region and `N = 2` puts one piece in each of the left and right regions. -/
theorem allocateByArea_spec :
    (∀ (N : ℤ) (areas : Areas), 3 ≤ N →
        0 < areas.left.val → 0 < areas.mid.val → 0 < areas.right.val →
        (allocateByArea N areas).sum = N ∧
          1 ≤ (allocateByArea N areas).left ∧
          1 ≤ (allocateByArea N areas).mid ∧
          1 ≤ (allocateByArea N areas).right) ∧
    (∀ areas : Areas, allocateByArea 1 areas = ⟨0, 1, 0⟩) ∧
    (∀ areas : Areas, allocateByArea 2 areas = ⟨1, 0, 1⟩) := by
  refine ⟨?_, ?_, ?_⟩
  · intro N areas h3 hl hm hr
    have hsumapos : 0 < areas.left.val + areas.mid.val + areas.right.val := by linarith
    have hxv : ∀ k, (allocX N areas k).val =
        ((N - 3 : ℤ) : ℚ) * (areas.get k).val /
          (areas.left.val + areas.mid.val + areas.right.val) :=
      fun k => allocX_val N areas k hl hm hr
    have hremnn : (0 : ℚ) ≤ ((N - 3 : ℤ) : ℚ) := by exact_mod_cast (by omega : (0:ℤ) ≤ N - 3)
    have hxnn : ∀ k, 0 ≤ (allocX N areas k).val := by
      intro k
      rw [hxv k]
      have hk : 0 < (areas.get k).val := by cases k <;> simpa [Areas.get]
      positivity
    have hfnn : ∀ k, 0 ≤ (allocX N areas k).floor := by
      intro k
      rw [Q.floor_val]
      exact Int.floor_nonneg.mpr (hxnn k)
    have hxsum : (allocX N areas RKey.left).val + (allocX N areas RKey.mid).val +
        (allocX N areas RKey.right).val = ((N - 3 : ℤ) : ℚ) := by
      rw [hxv RKey.left, hxv RKey.mid, hxv RKey.right]
      simp only [Areas.get]
      field_simp
      ring
    have hfle : ∀ k, ((allocX N areas k).floor : ℚ) ≤ (allocX N areas k).val := by
      intro k
      rw [Q.floor_val]
      exact Int.floor_le _
    have hfsum : (allocX N areas RKey.left).floor + (allocX N areas RKey.mid).floor +
        (allocX N areas RKey.right).floor ≤ N - 3 := by
      have hq : (((allocX N areas RKey.left).floor + (allocX N areas RKey.mid).floor +
          (allocX N areas RKey.right).floor : ℤ) : ℚ) ≤ ((N - 3 : ℤ) : ℚ) := by
        have h1 := hfle RKey.left
        have h2 := hfle RKey.mid
        have h4 := hfle RKey.right
        have hxsum2 := hxsum
        push_cast
        push_cast at hxsum2
        linarith
      exact_mod_cast hq
    have hbs : (allocBase N areas).sum = 3 + ((allocX N areas RKey.left).floor +
        (allocX N areas RKey.mid).floor + (allocX N areas RKey.right).floor) := by
      unfold allocBase Alloc.sum
      simp only
      ring
    have hexnn : 0 ≤ N - (allocBase N areas).sum := by omega
    have hb2sum : (allocB2 N areas).sum = N := by
      unfold allocB2
      rw [roundRobin_sum]
      omega
    have hb2ge : ∀ k, (allocBase N areas).get k ≤ (allocB2 N areas).get k := by
      intro k
      unfold allocB2
      exact roundRobin_ge _ _ _ _ k
    have halloc : allocateByArea N areas = allocB2 N areas := by
      unfold allocateByArea
      rw [if_neg (by omega), if_neg (by omega), if_neg (by omega)]
      have hfuel : (allocB2 N areas).sum.toNat = ((allocB2 N areas).sum.toNat - 1) + 1 := by
        omega
      rw [hfuel]
      unfold trimGo
      have hb2sum2 := hb2sum
      unfold Alloc.sum at hb2sum2
      rw [if_pos (by omega)]
    rw [halloc]
    have hbl := hb2ge RKey.left
    have hbm := hb2ge RKey.mid
    have hbr := hb2ge RKey.right
    have h1l := hfnn RKey.left
    have h1m := hfnn RKey.mid
    have h1r := hfnn RKey.right
    simp only [allocBase, Alloc.get] at hbl hbm hbr
    exact ⟨hb2sum, by omega, by omega, by omega⟩
  · intro areas
    unfold allocateByArea
    norm_num
  · intro areas
    unfold allocateByArea
    norm_num

/-- Witness for C8 at `N = 7` and unit areas. -/
theorem allocateByArea_spec_witness :
    ((allocateByArea 7 ⟨Q.ofInt 1, Q.ofInt 1, Q.ofInt 1⟩).sum = 7 ∧
        1 ≤ (allocateByArea 7 ⟨Q.ofInt 1, Q.ofInt 1, Q.ofInt 1⟩).left ∧
        1 ≤ (allocateByArea 7 ⟨Q.ofInt 1, Q.ofInt 1, Q.ofInt 1⟩).mid ∧
        1 ≤ (allocateByArea 7 ⟨Q.ofInt 1, Q.ofInt 1, Q.ofInt 1⟩).right) ∧
      allocateByArea 1 ⟨Q.ofInt 1, Q.ofInt 1, Q.ofInt 1⟩ = ⟨0, 1, 0⟩ ∧
      allocateByArea 2 ⟨Q.ofInt 1, Q.ofInt 1, Q.ofInt 1⟩ = ⟨1, 0, 1⟩ :=
  ⟨allocateByArea_spec.1 7 ⟨Q.ofInt 1, Q.ofInt 1, Q.ofInt 1⟩ (by decide)
      (by rw [Q.val_ofInt]; norm_num) (by rw [Q.val_ofInt]; norm_num)
      (by rw [Q.val_ofInt]; norm_num),
    allocateByArea_spec.2.1 _, allocateByArea_spec.2.2 _⟩


/-! ### Claim C9: anchored sites are fixed points of the Lloyd relaxer -/

def pZero : P2 := (Q.ofInt 0, Q.ofInt 0)

theorem getD_set_ne {α : Type} (l : List α) (k i : ℕ) (v d : α) (h : k ≠ i) :
    (l.set k v).getD i d = l.getD i d := by
  induction l generalizing k i with
  | nil => simp
  | cons a t ih =>
      cases k with
      | zero =>
          cases i with
          | zero => exact absurd rfl h
          | succ i2 => simp
      | succ k2 =>
          cases i with
          | zero => simp
          | succ i2 => simpa using ih k2 i2 (by omega)

theorem length_set {α : Type} (l : List α) (k : ℕ) (v : α) :
    (l.set k v).length = l.length := by simp

theorem getD_append_lt {α : Type} (l l2 : List α) (i : ℕ) (d : α) (h : i < l.length) :
    (l ++ l2).getD i d = l.getD i d := by
  induction l generalizing i with
  | nil => simp at h
  | cons a t ih =>
      cases i with
      | zero => simp
      | succ i2 => simpa using ih i2 (by simpa using h)

theorem getD_append_len {α : Type} (l : List α) (x : α) (d : α) :
    (l ++ [x]).getD l.length d = x := by
  induction l with
  | nil => rfl
  | cons a t ih => simpa using ih

/-- `nudgeStep` writes only at indices its mask leaves free. -/
theorem nudgeStep_preserves_fixed (planes : List Plane) (inside : P2) (mask : List Bool)
    (acc : List P2 × SeenMap × ℕ) (j i : ℕ) (him : mask.getD i false = true) :
    ((nudgeStep planes inside (some mask) acc j).1).getD i pZero = acc.1.getD i pZero := by
  unfold nudgeStep
  dsimp only
  cases hseen : mapGet acc.2.1 (keyOf (acc.1.getD j (Q.ofInt 0, Q.ofInt 0))) with
  | none => rfl
  | some j2 =>
      dsimp only
      simp only [maskGet]
      by_cases hjf : mask.getD j false = true
      · by_cases hj2f : mask.getD j2 false = true
        · rw [if_pos ⟨hjf, hj2f⟩]
        · rw [if_neg (by intro hc; exact hj2f hc.2), if_pos ⟨hjf, by simpa using hj2f⟩]
          apply getD_set_ne
          intro hji
          rw [hji] at hj2f
          exact hj2f him
      · rw [if_neg (by intro hc; exact hjf hc.1), if_neg (by intro hc; exact hjf hc.1)]
        apply getD_set_ne
        intro hji
        rw [hji] at hjf
        exact hjf him

theorem nudgeStep_length (planes : List Plane) (inside : P2) (mask : Option (List Bool))
    (acc : List P2 × SeenMap × ℕ) (j : ℕ) :
    ((nudgeStep planes inside mask acc j).1).length = acc.1.length := by
  unfold nudgeStep
  dsimp only
  cases mapGet acc.2.1 (keyOf (acc.1.getD j (Q.ofInt 0, Q.ofInt 0))) with
  | none => rfl
  | some j2 =>
      dsimp only
      by_cases hb : maskGet mask j = true ∧ maskGet mask j2 = true
      · rw [if_pos hb]
      · rw [if_neg hb]
        simp

theorem nudgeFold_preserves_fixed (planes : List Plane) (inside : P2) (mask : List Bool) :
    ∀ (idxs : List ℕ) (acc : List P2 × SeenMap × ℕ) (i : ℕ),
      mask.getD i false = true →
      ((idxs.foldl (nudgeStep planes inside (some mask)) acc).1).getD i pZero =
        acc.1.getD i pZero := by
  intro idxs
  induction idxs with
  | nil => intro acc i him; rfl
  | cons j rest ih =>
      intro acc i him
      rw [List.foldl_cons, ih _ i him, nudgeStep_preserves_fixed planes inside mask acc j i him]

theorem nudgeFold_length (planes : List Plane) (inside : P2) (mask : Option (List Bool)) :
    ∀ (idxs : List ℕ) (acc : List P2 × SeenMap × ℕ),
      ((idxs.foldl (nudgeStep planes inside mask) acc).1).length = acc.1.length := by
  intro idxs
  induction idxs with
  | nil => intro acc; rfl
  | cons j rest ih =>
      intro acc
      rw [List.foldl_cons, ih, nudgeStep_length]

theorem nudgeDuplicates_preserves_fixed (pts : List P2) (planes : List Plane)
    (inside : P2) (st : ℕ) (mask : List Bool) (i : ℕ) (him : mask.getD i false = true) :
    ((nudgeDuplicatesWithinPlanes pts planes inside st (some mask)).1).getD i pZero =
      pts.getD i pZero := by
  unfold nudgeDuplicatesWithinPlanes
  exact nudgeFold_preserves_fixed planes inside mask (List.range pts.length) (pts, [], st) i him

theorem nudgeDuplicates_length (pts : List P2) (planes : List Plane)
    (inside : P2) (st : ℕ) (mask : Option (List Bool)) :
    ((nudgeDuplicatesWithinPlanes pts planes inside st mask).1).length = pts.length := by
  unfold nudgeDuplicatesWithinPlanes
  exact nudgeFold_length planes inside mask (List.range pts.length) (pts, [], st)


/-! Fixed-site preservation of the Lloyd iteration. -/

theorem buildFold_length (E : Ext) (mask : Option (List Bool)) (size : Q)
    (planes : List Plane) (inside : P2) (zones : List Zone) (pts : List P2) :
    ∀ (idxs : List ℕ) (acc : List P2 × ℕ),
      ((idxs.foldl (lloydBuildStep E mask size planes inside zones pts) acc).1).length =
        acc.1.length + idxs.length := by
  intro idxs
  induction idxs with
  | nil => intro acc; simp
  | cons j rest ih =>
      intro acc
      rw [List.foldl_cons, ih]
      unfold lloydBuildStep
      by_cases hm : maskGet mask j = true
      · rw [if_pos hm]; simp; omega
      · rw [if_neg hm]; simp; omega

theorem buildFold_fixed (E : Ext) (mask : List Bool) (size : Q)
    (planes : List Plane) (inside : P2) (zones : List Zone) (pts : List P2) :
    ∀ (k j : ℕ) (acc : List P2 × ℕ), acc.1.length = j →
      (∀ i2, i2 < j → mask.getD i2 false = true → acc.1.getD i2 pZero = pts.getD i2 pZero) →
      ∀ i, i < j + k → mask.getD i false = true →
        (((List.range' j k).foldl
          (lloydBuildStep E (some mask) size planes inside zones pts) acc).1).getD i pZero =
          pts.getD i pZero := by
  intro k
  induction k with
  | zero =>
      intro j acc hlen hinv i hik him
      simp only [List.range'] at *
      exact hinv i (by omega) him
  | succ k2 ih =>
      intro j acc hlen hinv i hik him
      rw [List.range'_succ, List.foldl_cons]
      have hstep : ((lloydBuildStep E (some mask) size planes inside zones pts acc j).1).length
          = j + 1 := by
        unfold lloydBuildStep
        by_cases hm : maskGet (some mask) j = true
        · rw [if_pos hm]; simp [hlen]
        · rw [if_neg hm]; simp [hlen]
      refine ih (j + 1) _ hstep ?_ i (by omega) him
      intro i2 hi2 him2
      unfold lloydBuildStep
      by_cases hm : maskGet (some mask) j = true
      · rw [if_pos hm]
        by_cases hij : i2 < j
        · simp only
          rw [getD_append_lt _ _ _ _ (by omega)]
          exact hinv i2 hij him2
        · have : i2 = j := by omega
          subst this
          simp only
          rw [← hlen, getD_append_len]
          rfl
      · rw [if_neg hm]
        by_cases hij : i2 < j
        · simp only
          rw [getD_append_lt _ _ _ _ (by omega)]
          exact hinv i2 hij him2
        · have : i2 = j := by omega
          subst this
          simp only [maskGet] at hm
          rw [him2] at hm
          exact absurd rfl hm

theorem zonesFold_length (E : Ext) (mask : Option (List Bool)) (planes : List Plane)
    (inside : P2) (zones : List Zone) :
    ∀ (idxs : List ℕ) (acc : List P2 × ℕ),
      ((idxs.foldl (zonesFixStep E mask planes inside zones) acc).1).length = acc.1.length := by
  intro idxs
  induction idxs with
  | nil => intro acc; rfl
  | cons j rest ih =>
      intro acc
      rw [List.foldl_cons, ih]
      unfold zonesFixStep
      by_cases hm : maskGet mask j = true
      · rw [if_pos hm]
      · rw [if_neg hm]
        simp

theorem zonesFold_fixed (E : Ext) (mask : List Bool) (planes : List Plane)
    (inside : P2) (zones : List Zone) :
    ∀ (idxs : List ℕ) (acc : List P2 × ℕ) (i : ℕ), mask.getD i false = true →
      ((idxs.foldl (zonesFixStep E (some mask) planes inside zones) acc).1).getD i pZero =
        acc.1.getD i pZero := by
  intro idxs
  induction idxs with
  | nil => intro acc i him; rfl
  | cons j rest ih =>
      intro acc i him
      rw [List.foldl_cons, ih _ i him]
      unfold zonesFixStep
      by_cases hm : maskGet (some mask) j = true
      · rw [if_pos hm]
      · rw [if_neg hm]
        simp only
        apply getD_set_ne
        intro hji
        subst hji
        simp only [maskGet] at hm
        exact hm him

theorem lloydIter_length (E : Ext) (mask : Option (List Bool)) (size : Q)
    (planes : List Plane) (inside : P2) (zones : List Zone) (pts : List P2) (st : ℕ) :
    ((lloydIter E mask size planes inside zones pts st).1).length = pts.length := by
  unfold lloydIter
  by_cases hz : ¬ zones.isEmpty
  · rw [if_pos hz]
    rw [zonesFold_length, nudgeDuplicates_length, buildFold_length]
    simp
  · rw [if_neg hz]
    rw [nudgeDuplicates_length, buildFold_length]
    simp

theorem lloydIter_fixed (E : Ext) (mask : List Bool) (size : Q) (planes : List Plane)
    (inside : P2) (zones : List Zone) (pts : List P2) (st : ℕ) (i : ℕ)
    (hi : i < pts.length) (him : mask.getD i false = true) :
    ((lloydIter E (some mask) size planes inside zones pts st).1).getD i pZero =
      pts.getD i pZero := by
  unfold lloydIter
  have hstepped : ∀ (res : List P2 × ℕ),
      res = (List.range pts.length).foldl
        (lloydBuildStep E (some mask) size planes inside zones pts) ([], st) →
      (res.1).getD i pZero = pts.getD i pZero := by
    intro res hres
    rw [hres, List.range_eq_range']
    exact buildFold_fixed E mask size planes inside zones pts pts.length 0 ([], st)
      rfl (by intro i2 h2 _; omega) i (by omega) him
  by_cases hz : ¬ zones.isEmpty
  · rw [if_pos hz]
    rw [zonesFold_fixed _ _ _ _ _ _ _ i him, nudgeDuplicates_preserves_fixed _ _ _ _ _ i him]
    exact hstepped _ rfl
  · rw [if_neg hz]
    rw [nudgeDuplicates_preserves_fixed _ _ _ _ _ i him]
    exact hstepped _ rfl

/-- C9: constrained Lloyd relaxation, including its duplicate-nudging and
zone-avoidance steps, leaves every site flagged in the fixed mask at
exactly its input coordinates, for every iteration count, Voronoi
provider, plane set, and zone list. -/
theorem lloydRelax_keeps_anchored (E : Ext) (mask : List Bool) (size : Q)
    (planes : List Plane) (inside : P2) (zones : List Zone) :
    ∀ (iters : ℕ) (pts : List P2) (st : ℕ) (i : ℕ), i < pts.length →
      mask.getD i false = true →
      ((lloydRelaxInRegionAnchored E (some mask) size planes inside zones iters pts st).1).getD
        i pZero = pts.getD i pZero := by
  intro iters
  induction iters with
  | zero => intro pts st i hi him; rfl
  | succ k ih =>
      intro pts st i hi him
      unfold lloydRelaxInRegionAnchored
      have hlen : ((lloydIter E (some mask) size planes inside zones pts st).1).length
          = pts.length := lloydIter_length _ _ _ _ _ _ _ _
      rw [ih _ _ i (by omega) him]
      exact lloydIter_fixed E mask size planes inside zones pts st i hi him

/-- Witness for C9 on a two-site instance with the first site anchored. -/
theorem lloydRelax_keeps_anchored_witness :
    ((lloydRelaxInRegionAnchored ext0 (some [true, false]) (Q.ofInt 1000) [] pZero [] 1
        [(Q.ofInt 1, Q.ofInt 2), (Q.ofInt 3, Q.ofInt 4)] 0).1).getD 0 pZero =
      ([(Q.ofInt 1, Q.ofInt 2), (Q.ofInt 3, Q.ofInt 4)] : List P2).getD 0 pZero :=
  lloydRelax_keeps_anchored ext0 [true, false] (Q.ofInt 1000) [] pZero [] 1
    [(Q.ofInt 1, Q.ofInt 2), (Q.ofInt 3, Q.ofInt 4)] 0 0 (by decide) (by decide)


/-! ### Claim C7: the motif plan for large boards -/

theorem insertRegDesc_perm (x : Region) : ∀ (l : List Region), (insertRegDesc x l).Perm (x :: l) := by
  intro l
  induction l with
  | nil => exact List.Perm.refl _
  | cons y ys ih =>
      unfold insertRegDesc
      by_cases hc : Q.blt y.area x.area = true
      · rw [if_pos hc]
      · rw [if_neg hc]
        exact (List.Perm.cons y ih).trans (List.Perm.swap x y ys)

theorem sortRegionsDesc_perm_aux : ∀ (l acc : List Region),
    (l.foldl (fun acc x => insertRegDesc x acc) acc).Perm (acc ++ l) := by
  intro l
  induction l with
  | nil => intro acc; simp
  | cons x rest ih =>
      intro acc
      rw [List.foldl_cons]
      exact (ih _).trans
        (((insertRegDesc_perm x acc).append_right rest).trans List.perm_middle.symm)

theorem sortRegionsDesc_perm (l : List Region) : (sortRegionsDesc l).Perm l := by
  unfold sortRegionsDesc
  simpa using sortRegionsDesc_perm_aux l []

/-- C7 counterexample: at `pieceCount = 71 > 70` (seed `"a"`) the fallback
branch of `buildMotifPlan` repeats a single random type three times; the
plan is `[2, 2, 2]`, not one motif of each type. -/
theorem motifPlan_at_71_not_all_types :
    ¬ ((motifPlanOf ext0 "0" ⟨"a", 71, some 0⟩ (Q.ofInt 1000)).1).Perm [1, 2, 3] := by
  have h : (motifPlanOf ext0 "0" ⟨"a", 71, some 0⟩ (Q.ofInt 1000)).1 = [2, 2, 2] := by decide
  rw [h]
  intro hp
  have := hp.count_eq 1
  simp [List.count_cons] at this

/-- C7 (amended): for `pieceCount = 100` (the one supported size above 70)
the plan has exactly three motifs whose types are a seeded random
permutation of ring, ring+center, grid (1, 2, 3), and the three target
regions are the three distinct regions ordered by area. -/
theorem motifPlan_at_100_all_types (E : Ext) (now : String) (cfg : Config) (size : Q)
    (h : cfg.pieceCount = 100) :
    ((motifPlanOf E now cfg size).1).Perm [1, 2, 3] ∧
      (motifPlanOf E now cfg size).1.length = 3 ∧
      ((targetRegionsOf E now cfg size).map Region.key).Perm
        [RKey.left, RKey.mid, RKey.right] := by
  have hN : (boardN cfg : ℤ) = 100 := by
    unfold boardN
    rw [h]
    decide
  have hplan : ∀ st, (buildMotifPlan (boardN cfg : ℤ) st).1.Perm [1, 2, 3] := by
    intro st
    rw [hN]
    unfold buildMotifPlan
    rw [if_neg (by norm_num), if_neg (by norm_num), if_pos rfl]
    exact shuffleInPlace_perm 0 [1, 2, 3] st
  have hp : ((motifPlanOf E now cfg size).1).Perm [1, 2, 3] := by
    unfold motifPlanOf
    exact hplan _
  have hlen : (motifPlanOf E now cfg size).1.length = 3 := by
    rw [hp.length_eq]
    rfl
  refine ⟨hp, hlen, ?_⟩
  unfold targetRegionsOf
  dsimp only
  rw [hlen]
  set s1 := stage1 E now cfg size with hs1
  have hsp : (sortRegionsDesc [s1.regionL, s1.regionM, s1.regionR]).Perm
      [s1.regionL, s1.regionM, s1.regionR] := sortRegionsDesc_perm _
  have hslen : (sortRegionsDesc [s1.regionL, s1.regionM, s1.regionR]).length = 3 := by
    rw [hsp.length_eq]
    rfl
  have htake : (sortRegionsDesc [s1.regionL, s1.regionM, s1.regionR]).take (min 3 3) =
      sortRegionsDesc [s1.regionL, s1.regionM, s1.regionR] := by
    apply List.take_of_length_le
    omega
  rw [htake]
  have hk : [s1.regionL, s1.regionM, s1.regionR].map Region.key =
      [RKey.left, RKey.mid, RKey.right] := by
    rw [hs1]
    rfl
  calc ((sortRegionsDesc [s1.regionL, s1.regionM, s1.regionR]).map Region.key).Perm
        ([s1.regionL, s1.regionM, s1.regionR].map Region.key) := hsp.map Region.key
    _ = [RKey.left, RKey.mid, RKey.right] := hk

/-- Witness for C7 at `pieceCount = 100`, seed `"a"`. -/
theorem motifPlan_at_100_all_types_witness :
    ((motifPlanOf ext0 "0" ⟨"a", 100, some 0⟩ (Q.ofInt 1000)).1).Perm [1, 2, 3] ∧
      (motifPlanOf ext0 "0" ⟨"a", 100, some 0⟩ (Q.ofInt 1000)).1.length = 3 ∧
      ((targetRegionsOf ext0 "0" ⟨"a", 100, some 0⟩ (Q.ofInt 1000)).map Region.key).Perm
        [RKey.left, RKey.mid, RKey.right] :=
  motifPlan_at_100_all_types ext0 "0" ⟨"a", 100, some 0⟩ (Q.ofInt 1000) rfl


/-! ### Claim C6: the global motif point budget -/

/-- Total number of struct (motif) points currently stored. -/
def structTotal (a : MotifAcc) : ℤ :=
  (a.structL.length : ℤ) + (a.structM.length : ℤ) + (a.structR.length : ℤ)

theorem motifMinPoints_ge3 (t : ℕ) : 3 ≤ motifMinPoints t := by
  unfold motifMinPoints
  split
  · omega
  · split <;> omega

theorem motifMinPoints_le4 (t : ℕ) : motifMinPoints t ≤ 4 := by
  unfold motifMinPoints
  split
  · omega
  · split <;> omega

theorem minSum_shift (plan : List ℕ) : ∀ (a : ℤ),
    plan.foldl (fun s u => s + motifMinPoints u) a = a + minSum plan := by
  induction plan with
  | nil => intro a; simp [minSum]
  | cons t rest ih =>
      intro a
      simp only [List.foldl_cons]
      rw [ih (a + motifMinPoints t)]
      have h2 : minSum (t :: rest) = motifMinPoints t + minSum rest := by
        have hd : minSum (t :: rest)
            = List.foldl (fun s u => s + motifMinPoints u) (0 + motifMinPoints t) rest := rfl
        rw [hd, ih (0 + motifMinPoints t)]
        ring
      rw [h2]
      ring

theorem minSum_cons (t : ℕ) (rest : List ℕ) :
    minSum (t :: rest) = motifMinPoints t + minSum rest := by
  unfold minSum
  simp only [List.foldl_cons]
  rw [minSum_shift rest (0 + motifMinPoints t)]
  have h3 : minSum rest = rest.foldl (fun s u => s + motifMinPoints u) 0 := rfl
  rw [← h3]
  ring

theorem minSum_nonneg (plan : List ℕ) : 0 ≤ minSum plan := by
  induction plan with
  | nil => simp [minSum]
  | cons t rest ih =>
      rw [minSum_cons]
      have := motifMinPoints_ge3 t
      omega

theorem minSum_le (plan : List ℕ) : minSum plan ≤ 4 * plan.length := by
  induction plan with
  | nil => simp [minSum]
  | cons t rest ih =>
      rw [minSum_cons]
      have := motifMinPoints_le4 t
      simp only [List.length_cons]
      push_cast
      omega

/-- Bounds on the floor of a scaled draw. -/
theorem randFloor_bounds (st : ℕ) (K : ℤ) (hK : 1 ≤ K) :
    0 ≤ (Q.mul (randNext st).1 (Q.ofInt K)).floor ∧
      (Q.mul (randNext st).1 (Q.ofInt K)).floor ≤ K - 1 := by
  have h0 := randNext_nonneg st
  have h1 := randNext_lt_one st
  have hKq : (0 : ℚ) < (K : ℚ) := by exact_mod_cast hK
  have hv : (Q.mul (randNext st).1 (Q.ofInt K)).val = (randNext st).1.val * (K : ℚ) := by
    rw [Q.val_mul, Q.val_ofInt]
  constructor
  · rw [Q.floor_val]
    apply Int.floor_nonneg.mpr
    rw [hv]
    positivity
  · rw [Q.floor_val]
    have : (Q.mul (randNext st).1 (Q.ofInt K)).val < (K : ℚ) := by
      rw [hv]
      calc (randNext st).1.val * (K : ℚ) < 1 * (K : ℚ) := by
            exact mul_lt_mul_of_pos_right h1 hKq
        _ = (K : ℚ) := one_mul _
    have h2 : ⌊(Q.mul (randNext st).1 (Q.ofInt K)).val⌋ < K := Int.floor_lt.mpr (by exact_mod_cast this)
    omega

theorem gridInner_mem (mp : ℤ) (k : ℕ) (P : ℤ × ℤ → Prop) :
    ∀ (ns : List ℕ) (acc : List (ℤ × ℤ)), (∀ x ∈ acc, P x) →
      (∀ n ∈ ns, (k : ℤ) * (n : ℤ) ≤ mp → P ((k : ℤ), (n : ℤ))) →
      ∀ x ∈ ns.foldl
        (fun (acc2 : List (ℤ × ℤ)) (n : ℕ) => if (k : ℤ) * (n : ℤ) ≤ mp then acc2 ++ [((k : ℤ), (n : ℤ))] else acc2)
        acc, P x := by
  intro ns
  induction ns with
  | nil => intro acc hacc _ x hx; exact hacc x hx
  | cons n rest ih =>
      intro acc hacc hns x hx
      rw [List.foldl_cons] at hx
      refine ih _ ?_ (fun n2 h2 => hns n2 (by simp [h2])) x hx
      intro y hy
      by_cases hc : (k : ℤ) * (n : ℤ) ≤ mp
      · rw [if_pos hc] at hy
        rcases List.mem_append.mp hy with h | h
        · exact hacc y h
        · simp at h
          subst h
          exact hns n (by simp) hc
      · rw [if_neg hc] at hy
        exact hacc y hy

theorem gridFeasible_mem (mp : ℤ) :
    ∀ x ∈ gridFeasible mp, 1 ≤ x.1 ∧ 3 ≤ x.2 ∧ x.1 * x.2 ≤ mp := by
  unfold gridFeasible
  have houter : ∀ (ks : List ℕ) (acc : List (ℤ × ℤ)),
      (∀ x ∈ acc, 1 ≤ x.1 ∧ 3 ≤ x.2 ∧ x.1 * x.2 ≤ mp) →
      (∀ k ∈ ks, 1 ≤ (k : ℤ)) →
      ∀ x ∈ ks.foldl
        (fun (acc : List (ℤ × ℤ)) (k : ℕ) =>
          (List.range' 3 3).foldl
            (fun (acc2 : List (ℤ × ℤ)) (n : ℕ) => if (k : ℤ) * (n : ℤ) ≤ mp then acc2 ++ [((k : ℤ), (n : ℤ))] else acc2)
            acc)
        acc, 1 ≤ x.1 ∧ 3 ≤ x.2 ∧ x.1 * x.2 ≤ mp := by
    intro ks
    induction ks with
    | nil => intro acc hacc _ x hx; exact hacc x hx
    | cons k rest ih =>
        intro acc hacc hks x hx
        rw [List.foldl_cons] at hx
        refine ih _ ?_ (fun k2 h2 => hks k2 (by simp [h2])) x hx
        intro y hy
        refine gridInner_mem mp k _ (List.range' 3 3) acc hacc ?_ y hy
        intro n hn hc
        have hk1 : 1 ≤ (k : ℤ) := hks k (by simp)
        have hn3 : 3 ≤ (n : ℤ) := by
          simp [List.mem_range'] at hn
          omega
        exact ⟨hk1, hn3, hc⟩
  intro x hx
  refine houter (List.range' 1 3) [] (by simp) ?_ x hx
  intro k hk
  simp [List.mem_range'] at hk
  omega

theorem gridInner_len_mono (mp : ℤ) (k : ℕ) :
    ∀ (ns : List ℕ) (acc : List (ℤ × ℤ)),
      acc.length ≤ (ns.foldl
        (fun (acc2 : List (ℤ × ℤ)) (n : ℕ) => if (k : ℤ) * (n : ℤ) ≤ mp then acc2 ++ [((k : ℤ), (n : ℤ))] else acc2)
        acc).length := by
  intro ns
  induction ns with
  | nil => intro acc; simp
  | cons n rest ih =>
      intro acc
      rw [List.foldl_cons]
      refine le_trans ?_ (ih _)
      by_cases hc : (k : ℤ) * (n : ℤ) ≤ mp
      · rw [if_pos hc]; simp
      · rw [if_neg hc]

theorem gridOuter_len_mono (mp : ℤ) :
    ∀ (ks : List ℕ) (acc : List (ℤ × ℤ)),
      acc.length ≤ (ks.foldl
        (fun (acc : List (ℤ × ℤ)) (k : ℕ) =>
          (List.range' 3 3).foldl
            (fun (acc2 : List (ℤ × ℤ)) (n : ℕ) => if (k : ℤ) * (n : ℤ) ≤ mp then acc2 ++ [((k : ℤ), (n : ℤ))] else acc2)
            acc)
        acc).length := by
  intro ks
  induction ks with
  | nil => intro acc; simp
  | cons k rest ih =>
      intro acc
      rw [List.foldl_cons]
      exact le_trans (gridInner_len_mono mp k (List.range' 3 3) acc) (ih _)

theorem gridFeasible_nonempty (mp : ℤ) (h : 3 ≤ mp) : 0 < (gridFeasible mp).length := by
  unfold gridFeasible
  rw [show List.range' 1 3 = [1, 2, 3] from rfl, List.foldl_cons]
  refine lt_of_lt_of_le ?_ (gridOuter_len_mono mp [2, 3] _)
  rw [show List.range' 3 3 = [3, 4, 5] from rfl, List.foldl_cons]
  have hc : ((1 : ℕ) : ℤ) * ((3 : ℕ) : ℤ) ≤ mp := by push_cast; omega
  rw [if_pos hc]
  refine lt_of_lt_of_le ?_ (gridInner_len_mono mp 1 [4, 5] _)
  simp

/-- Facts about `chooseMotifParam` under a sufficient, non-wrapping budget:
the chosen count is between the type minimum and `maxPoints`, and the shape
parameters reproduce the count. -/
theorem chooseMotifParam_spec (t : ℕ) (maxPoints : ℤ) (st : ℕ)
    (hmin : motifMinPoints t ≤ maxPoints) (hub : maxPoints < 2147483648) :
    motifMinPoints t ≤ (chooseMotifParam t maxPoints st).1.count ∧
      (chooseMotifParam t maxPoints st).1.count ≤ maxPoints ∧
      3 ≤ (chooseMotifParam t maxPoints st).1.mn ∧
      ((chooseMotifParam t maxPoints st).1.mtype = 1 ∧
          (chooseMotifParam t maxPoints st).1.count = (chooseMotifParam t maxPoints st).1.mn ∨
        (chooseMotifParam t maxPoints st).1.mtype = 2 ∧
          (chooseMotifParam t maxPoints st).1.count = (chooseMotifParam t maxPoints st).1.mn + 1 ∨
        (chooseMotifParam t maxPoints st).1.mtype = 3 ∧
          (chooseMotifParam t maxPoints st).1.count =
            (chooseMotifParam t maxPoints st).1.mgk * (chooseMotifParam t maxPoints st).1.mn ∧
          1 ≤ (chooseMotifParam t maxPoints st).1.mgk) := by
  have h3t := motifMinPoints_ge3 t
  have h0 : 0 ≤ maxPoints := by omega
  have hmp : max 0 (toInt32 maxPoints) = maxPoints := by
    rw [toInt32_of_small _ h0 hub]
    omega
  unfold chooseMotifParam
  rw [hmp]
  by_cases ht1 : t = 1
  · rw [if_pos ht1]
    subst ht1
    have hminp : motifMinPoints 1 = 3 := rfl
    rw [hminp] at hmin ⊢
    have hK : (1 : ℤ) ≤ max 1 (min 8 maxPoints - 3 + 1) := le_max_left _ _
    have hKval : max 1 (min 8 maxPoints - 3 + 1) = min 8 maxPoints - 2 := by omega
    have hb := randFloor_bounds st (max 1 (min 8 maxPoints - 3 + 1)) hK
    simp only
    refine ⟨by omega, by omega, by omega, Or.inl ⟨trivial, trivial⟩⟩
  · rw [if_neg ht1]
    by_cases ht2 : t = 2
    · rw [if_pos ht2]
      subst ht2
      have hminp : motifMinPoints 2 = 4 := rfl
      rw [hminp] at hmin ⊢
      have hK : (1 : ℤ) ≤ max 1 (min 8 (maxPoints - 1) - 3 + 1) := le_max_left _ _
      have hKval : max 1 (min 8 (maxPoints - 1) - 3 + 1) = min 8 (maxPoints - 1) - 2 := by
        omega
      have hb := randFloor_bounds st (max 1 (min 8 (maxPoints - 1) - 3 + 1)) hK
      simp only
      refine ⟨by omega, by omega, by omega, Or.inr (Or.inl ⟨trivial, trivial⟩)⟩
    · rw [if_neg ht2]
      have hminp : motifMinPoints t = 3 := by
        unfold motifMinPoints
        rw [if_neg ht1, if_neg ht2]
      rw [hminp] at hmin ⊢
      have hne : ¬ (gridFeasible maxPoints).isEmpty = true := by
        have := gridFeasible_nonempty maxPoints hmin
        intro hc
        rw [List.isEmpty_iff_length_eq_zero] at hc
        omega
      rw [if_neg hne]
      have hlenpos : 0 < (gridFeasible maxPoints).length := gridFeasible_nonempty maxPoints hmin
      have hidx : ((Q.mul (randNext st).1 (Q.ofInt ((gridFeasible maxPoints).length : ℤ))).floor).toNat
          < (gridFeasible maxPoints).length := by
        have hb := randFloor_bounds st ((gridFeasible maxPoints).length : ℤ) (by exact_mod_cast hlenpos)
        omega
      set idx := ((Q.mul (randNext st).1 (Q.ofInt ((gridFeasible maxPoints).length : ℤ))).floor).toNat
      have hmem : (gridFeasible maxPoints).getD idx (1, 3) ∈ gridFeasible maxPoints := by
        rw [List.getD_eq_getElem _ _ hidx]
        exact List.getElem_mem _
      have hfact := gridFeasible_mem maxPoints _ hmem
      simp only
      have hcount : 3 ≤ ((gridFeasible maxPoints).getD idx (1, 3)).1 *
          ((gridFeasible maxPoints).getD idx (1, 3)).2 := by
        calc (3 : ℤ) = 1 * 3 := by ring
          _ ≤ ((gridFeasible maxPoints).getD idx (1, 3)).1 *
              ((gridFeasible maxPoints).getD idx (1, 3)).2 := by
            apply mul_le_mul hfact.1 hfact.2.1 (by norm_num)
            omega
      exact ⟨hcount, hfact.2.2, hfact.2.1, Or.inr (Or.inr ⟨trivial, trivial, hfact.1⟩)⟩

/-! ### The motif budget (claim C6) -/

theorem toInt32_lt_two31 (z : ℤ) : toInt32 z < 2147483648 := by
  unfold toInt32
  have h0 : 0 ≤ z % (U32 : ℤ) := Int.emod_nonneg z (by norm_num [U32])
  have h1 : z % (U32 : ℤ) < (U32 : ℤ) := Int.emod_lt_of_pos z (by norm_num [U32])
  simp only [U32] at h0 h1 ⊢
  split <;> omega

theorem boardN_lt_two31 (cfg : Config) : (boardN cfg : ℤ) < 2147483648 := by
  unfold boardN
  have h1 := toInt32_lt_two31 cfg.pieceCount
  have h2 : (0 : ℤ) ≤ max 1 (toInt32 cfg.pieceCount) := le_trans (by norm_num) (le_max_left _ _)
  rw [Int.toNat_of_nonneg h2]
  omega

theorem foldl_len_step {α : Type} (k : ℕ) (l : List α) (f : (List P2 × Q) → α → (List P2 × Q))
    (hf : ∀ acc x, ((f acc x).1).length = acc.1.length + k) :
    ∀ acc : List P2 × Q, ((l.foldl f acc).1).length = acc.1.length + l.length * k := by
  induction l with
  | nil => intro acc; simp
  | cons x rest ih =>
      intro acc
      rw [List.foldl_cons, ih (f acc x), hf acc x, List.length_cons]
      ring

theorem gridCellStep_len (E : Ext) (reg : Region) (c : P2) (x0 y0 spacing cosv sinv : Q)
    (row : ℕ) (acc2 : List P2 × Q) (col : ℕ) :
    ((gridCellStep E reg c x0 y0 spacing cosv sinv row acc2 col).1).length
      = acc2.1.length + 1 := by
  unfold gridCellStep
  simp

theorem gridRowStep_len (E : Ext) (reg : Region) (mn : ℤ) (c : P2) (x0 y0 spacing cosv sinv : Q)
    (acc : List P2 × Q) (row : ℕ) :
    ((gridRowStep E reg mn c x0 y0 spacing cosv sinv acc row).1).length
      = acc.1.length + mn.toNat := by
  unfold gridRowStep
  rw [foldl_len_step 1 (List.range mn.toNat) _
    (fun acc2 col => gridCellStep_len E reg c x0 y0 spacing cosv sinv row acc2 col) acc]
  simp

/-- The built motif places exactly `param.count` struct points, for the
parameter shapes `chooseMotifParam` produces. -/
theorem buildMotifInRegion_length (E : Ext) (reg : Region) (param : MotifParam) (st : ℕ)
    (hmn : 0 ≤ param.mn)
    (h : param.mtype = 1 ∧ param.count = param.mn ∨
         param.mtype = 2 ∧ param.count = param.mn + 1 ∨
         param.mtype = 3 ∧ param.count = param.mgk * param.mn ∧ 1 ≤ param.mgk) :
    (((buildMotifInRegion E reg param st).1.1).length : ℤ) = param.count := by
  unfold buildMotifInRegion
  rcases h with ⟨ht, hc⟩ | ⟨ht, hc⟩ | ⟨ht, hc, hg⟩
  · rw [if_pos (Or.inl ht)]
    dsimp only
    rw [if_neg (show ¬ param.mtype = 2 by omega)]
    simp only [List.length_map, List.length_range]
    omega
  · rw [if_pos (Or.inr ht)]
    dsimp only
    rw [if_pos ht]
    simp only [List.length_append, List.length_map, List.length_range, List.length_cons,
      List.length_nil]
    omega
  · rw [if_neg (show ¬ (param.mtype = 1 ∨ param.mtype = 2) by omega)]
    dsimp only
    rw [foldl_len_step param.mn.toNat (List.range param.mgk.toNat) _
      (fun acc row => gridRowStep_len E reg param.mn _ _ _ _ _ _ acc row) (([], Q.ofInt 0))]
    simp only [List.length_nil, List.length_range, Nat.zero_add]
    have h1 : (param.mn.toNat : ℤ) = param.mn := Int.toNat_of_nonneg hmn
    have h2 : (param.mgk.toNat : ℤ) = param.mgk := Int.toNat_of_nonneg (by omega)
    rw [Nat.cast_mul, h1, h2, hc]

theorem structTotal_store_le (a : MotifAcc) (k : RKey) (pts : List P2) (z : Zone) :
    structTotal (a.store k pts z) ≤ structTotal a + pts.length := by
  cases k <;>
    · unfold MotifAcc.store structTotal
      dsimp only
      have := Nat.cast_nonneg (α := ℤ)
      push_cast
      omega

theorem store_usedS (a : MotifAcc) (k : RKey) (pts : List P2) (z : Zone) :
    (a.store k pts z).usedS = a.usedS := by
  cases k <;> rfl

theorem store_st (a : MotifAcc) (k : RKey) (pts : List P2) (z : Zone) :
    (a.store k pts z).st = a.st := by
  cases k <;> rfl

theorem motifMaxPts_ge_min (Smax : ℤ) (t : ℕ) (rest : List ℕ) (reg : Region) (used : ℤ) :
    motifMinPoints t ≤ motifMaxPts Smax t rest reg used := by
  unfold motifMaxPts
  dsimp only
  omega

theorem motifMaxPts_lt_two31 (Smax : ℤ) (t : ℕ) (rest : List ℕ) (reg : Region) (used : ℤ)
    (h0 : 0 ≤ used) (hS : Smax < 2147483648) :
    motifMaxPts Smax t rest reg used < 2147483648 := by
  unfold motifMaxPts
  dsimp only
  have h1 := minSum_nonneg rest
  have h2 := motifMinPoints_le4 t
  omega

theorem motifMaxPts_le_budget (Smax : ℤ) (t : ℕ) (rest : List ℕ) (reg : Region) (used : ℤ)
    (h : used + motifMinPoints t + minSum rest ≤ Smax) :
    motifMaxPts Smax t rest reg used ≤ Smax - used - minSum rest := by
  unfold motifMaxPts
  dsimp only
  omega

/-- The sequential reservation invariant: if the budget still covers the
minimum owed to the remaining plan, the assignment never stores more struct
points than `Smax` in total. -/
theorem assignGo_budget (E : Ext) (Smax : ℤ) (hS : Smax < 2147483648) :
    ∀ (plan : List ℕ) (regs : List Region) (acc : MotifAcc),
      0 ≤ acc.usedS → acc.usedS + minSum plan ≤ Smax → structTotal acc ≤ acc.usedS →
      structTotal (assignGo E Smax plan regs acc) ≤ Smax := by
  intro plan
  induction plan with
  | nil =>
      intro regs acc h0 h1 h2
      rw [assignGo]
      have h3 : minSum ([] : List ℕ) = 0 := rfl
      omega
  | cons t rest ih =>
      intro regs acc h0 h1 h2
      cases regs with
      | nil =>
          rw [assignGo]
          have h3 := minSum_nonneg (t :: rest)
          omega
      | cons reg regs2 =>
          rw [assignGo]
          dsimp only
          have hmins : minSum (t :: rest) = motifMinPoints t + minSum rest := minSum_cons t rest
          have hbud : acc.usedS + motifMinPoints t + minSum rest ≤ Smax := by omega
          have hmaxlt := motifMaxPts_lt_two31 Smax t rest reg acc.usedS h0 hS
          have hmaxge := motifMaxPts_ge_min Smax t rest reg acc.usedS
          have hmaxle := motifMaxPts_le_budget Smax t rest reg acc.usedS hbud
          have hch := chooseMotifParam_spec t (motifMaxPts Smax t rest reg acc.usedS) acc.st
            hmaxge hmaxlt
          obtain ⟨hcmin, hcmax, hc3, hshape⟩ := hch
          have hlen := buildMotifInRegion_length E reg
            (chooseMotifParam t (motifMaxPts Smax t rest reg acc.usedS) acc.st).1
            (chooseMotifParam t (motifMaxPts Smax t rest reg acc.usedS) acc.st).2
            (by omega) hshape
          have hminp3 := motifMinPoints_ge3 t
          refine ih regs2 _ ?_ ?_ ?_
          · dsimp only
            omega
          · dsimp only
            omega
          · dsimp only
            have hst := structTotal_store_le acc reg.key
              ((buildMotifInRegion E reg
                (chooseMotifParam t (motifMaxPts Smax t rest reg acc.usedS) acc.st).1
                (chooseMotifParam t (motifMaxPts Smax t rest reg acc.usedS) acc.st).2).1.1)
              ((buildMotifInRegion E reg
                (chooseMotifParam t (motifMaxPts Smax t rest reg acc.usedS) acc.st).1
                (chooseMotifParam t (motifMaxPts Smax t rest reg acc.usedS) acc.st).2).1.2)
            have hstract : structTotal
                { (acc.store reg.key
                    ((buildMotifInRegion E reg
                      (chooseMotifParam t (motifMaxPts Smax t rest reg acc.usedS) acc.st).1
                      (chooseMotifParam t (motifMaxPts Smax t rest reg acc.usedS) acc.st).2).1.1)
                    ((buildMotifInRegion E reg
                      (chooseMotifParam t (motifMaxPts Smax t rest reg acc.usedS) acc.st).1
                      (chooseMotifParam t (motifMaxPts Smax t rest reg acc.usedS) acc.st).2).1.2))
                  with
                    params := acc.params ++
                      [(chooseMotifParam t (motifMaxPts Smax t rest reg acc.usedS) acc.st).1]
                    usedS := acc.usedS +
                      (chooseMotifParam t (motifMaxPts Smax t rest reg acc.usedS) acc.st).1.count
                    st := (buildMotifInRegion E reg
                      (chooseMotifParam t (motifMaxPts Smax t rest reg acc.usedS) acc.st).1
                      (chooseMotifParam t (motifMaxPts Smax t rest reg acc.usedS) acc.st).2).2 }
              = structTotal (acc.store reg.key
                  ((buildMotifInRegion E reg
                    (chooseMotifParam t (motifMaxPts Smax t rest reg acc.usedS) acc.st).1
                    (chooseMotifParam t (motifMaxPts Smax t rest reg acc.usedS) acc.st).2).1.1)
                  ((buildMotifInRegion E reg
                    (chooseMotifParam t (motifMaxPts Smax t rest reg acc.usedS) acc.st).1
                    (chooseMotifParam t (motifMaxPts Smax t rest reg acc.usedS) acc.st).2).1.2)) := by
              cases hk : reg.key <;> rfl
            rw [hstract]
            omega

theorem minSum_single (x : ℕ) : minSum [x] = motifMinPoints x := by
  rw [minSum_cons]
  have h : minSum ([] : List ℕ) = 0 := rfl
  omega

theorem minSum_pair (a b : ℕ) : minSum [a, b] = motifMinPoints a + motifMinPoints b := by
  rw [minSum_cons, minSum_cons]
  have h : minSum ([] : List ℕ) = 0 := rfl
  omega

theorem minSum_triple (a b c : ℕ) :
    minSum [a, b, c] = motifMinPoints a + motifMinPoints b + motifMinPoints c := by
  rw [minSum_cons, minSum_cons, minSum_cons]
  have h : minSum ([] : List ℕ) = 0 := rfl
  omega

/-- A size-dependent bound on the minimum points owed to any motif plan. -/
theorem buildMotifPlan_minSum (P : ℤ) (st : ℕ) :
    minSum (buildMotifPlan P st).1 ≤ if P ≤ 30 then 4 else if P ≤ 70 then 7 else 12 := by
  unfold buildMotifPlan
  have h4 := motifMinPoints_le4
  have h33 : motifMinPoints 3 = 3 := rfl
  by_cases h20 : P = 20
  · rw [if_pos h20, if_pos (by omega : P ≤ 30)]
    dsimp only
    rw [minSum_single]
    exact h4 _
  · rw [if_neg h20]
    by_cases h50 : P = 50
    · rw [if_pos h50, if_neg (by omega : ¬ P ≤ 30), if_pos (by omega : P ≤ 70)]
      dsimp only
      rw [minSum_pair]
      have := h4 (if Q.blt (randNext st).1 qHalf then 1 else 2)
      omega
    · rw [if_neg h50]
      by_cases h100 : P = 100
      · rw [if_pos h100, if_neg (by omega : ¬ P ≤ 30), if_neg (by omega : ¬ P ≤ 70)]
        have hperm := shuffleInPlace_perm 0 [1, 2, 3] st
        have hlen : (shuffleInPlace 0 [1, 2, 3] st).1.length = 3 := by
          rw [hperm.length_eq]
          rfl
        have := minSum_le (shuffleInPlace 0 [1, 2, 3] st).1
        rw [hlen] at this
        omega
      · rw [if_neg h100]
        by_cases h30 : P ≤ 30
        · rw [if_pos h30, if_pos h30]
          dsimp only
          rw [minSum_single]
          exact h4 _
        · rw [if_neg h30, if_neg h30]
          by_cases h70 : P ≤ 70
          · rw [if_pos h70, if_pos h70]
            dsimp only
            rw [minSum_pair]
            have := h4 (if Q.blt (randNext st).1 qHalf then 1 else 2)
            omega
          · rw [if_neg h70, if_neg h70]
            dsimp only
            rw [minSum_triple]
            have := h4 (pickMotifType123 st).1
            omega

/-- For `N ≥ 10` the floor budget dominates the plan minimum bound. -/
theorem smax_floor_ge (N : ℤ) (h10 : 10 ≤ N) :
    (if N ≤ 30 then (4 : ℤ) else if N ≤ 70 then 7 else 12) ≤
      (Q.mul (Q.norm 2 5) (Q.ofInt N)).floor := by
  rw [Q.floor_val, Q.val_mul, Q.val_norm 2 5 (by norm_num), Q.val_ofInt]
  rw [Int.le_floor]
  by_cases h30 : N ≤ 30
  · rw [if_pos h30]
    have hq : (10 : ℚ) ≤ (N : ℚ) := by exact_mod_cast h10
    push_cast
    linarith
  · rw [if_neg h30]
    by_cases h70 : N ≤ 70
    · rw [if_pos h70]
      have hq : (31 : ℚ) ≤ (N : ℚ) := by exact_mod_cast (by omega : (31 : ℤ) ≤ N)
      push_cast
      linarith
    · rw [if_neg h70]
      have hq : (71 : ℚ) ≤ (N : ℚ) := by exact_mod_cast (by omega : (71 : ℤ) ≤ N)
      push_cast
      linarith

theorem smaxOf_lt_two31 (cfg : Config) : smaxOf cfg < 2147483648 := by
  unfold smaxOf
  rw [Q.floor_val, Q.val_mul, Q.val_norm 2 5 (by norm_num), Q.val_ofInt]
  push_cast
  have hb := boardN_lt_two31 cfg
  have h0 : (0 : ℚ) ≤ (boardN cfg : ℚ) := by positivity
  have hle : ⌊(2 : ℚ) / 5 * (boardN cfg : ℚ)⌋ ≤ (boardN cfg : ℤ) := by
    have h1 : (2 : ℚ) / 5 * (boardN cfg : ℚ) ≤ (boardN cfg : ℚ) := by linarith
    calc ⌊(2 : ℚ) / 5 * (boardN cfg : ℚ)⌋ ≤ ⌊(boardN cfg : ℚ)⌋ := Int.floor_le_floor h1
      _ = ((boardN cfg : ℕ) : ℤ) := Int.floor_natCast _
  omega

/-- C6: the sequential budgeted assignment keeps the total number of motif
struct points within `Smax = floor(0.4 * N)` — provided the board has at
least 10 pieces, so that the budget covers the plan's minimum demand. The
frozen claim over every `pieceCount` is refuted at `pieceCount = 3`. -/
theorem motifs_within_budget (E : Ext) (now : String) (cfg : Config) (size : Q)
    (h10 : 10 ≤ boardN cfg) :
    structTotal (motifStage E now cfg size) ≤ smaxOf cfg := by
  unfold motifStage
  dsimp only
  apply assignGo_budget E (smaxOf cfg) (smaxOf_lt_two31 cfg)
  · dsimp only
    omega
  · dsimp only
    unfold motifPlanOf
    have hb := buildMotifPlan_minSum ((boardN cfg : ℕ) : ℤ) (stage1 E now cfg size).st
    have hf := smax_floor_ge ((boardN cfg : ℕ) : ℤ) (by exact_mod_cast h10)
    unfold smaxOf
    omega
  · dsimp only
    simp [structTotal]

/-- C6 witness: a 20-piece board satisfies the size hypothesis and the
budget bound. -/
theorem motifs_within_budget_witness :
    10 ≤ boardN ⟨"a", 20, some 0⟩ ∧
      structTotal (motifStage ext0 "0" ⟨"a", 20, some 0⟩ (Q.ofInt 1000)) ≤
        smaxOf ⟨"a", 20, some 0⟩ :=
  ⟨by decide, motifs_within_budget ext0 "0" ⟨"a", 20, some 0⟩ (Q.ofInt 1000) (by decide)⟩

/-- C6 counterexample: at `pieceCount = 3` the single chosen motif already
needs 4 struct points while `Smax = floor(0.4 * 3) = 1`, overrunning the
budget (`budgetMax` is floored at the type minimum). -/
theorem motif_budget_exceeded_at_three :
    ¬ structTotal (motifStage ext0 "0" ⟨"a", 3, some 0⟩ (Q.ofInt 1000)) ≤
        smaxOf ⟨"a", 3, some 0⟩ := by decide

/-! ### Claim C3: containment up to the clipping tolerance -/

/-- The signed plane value at the rational level. -/
def pv (pl : Plane) (p : P2) : ℚ :=
  pl.a.val * p.1.val + pl.b.val * p.2.val - pl.c.val

theorem planeVal_val (pl : Plane) (p : P2) : (planeVal pl p).val = pv pl p := by
  unfold planeVal pv
  rw [Q.val_sub, Q.val_add, Q.val_mul, Q.val_mul]

theorem eps9_val : qEps9.val = 1 / 1000000000 := by
  unfold qEps9
  rw [Q.val_norm _ _ (by norm_num)]
  norm_num

theorem eps12_val : qEps12.val = 1 / 1000000000000 := by
  unfold qEps12
  rw [Q.val_norm _ _ (by norm_num)]
  norm_num

theorem isInsidePlane_iff (p : P2) (pl : Plane) :
    isInsidePlane p pl = true ↔ pv pl p ≤ qEps9.val := by
  unfold isInsidePlane
  rw [Q.ble_iff, planeVal_val]

theorem jsClamp01_val_bounds (x : Q) :
    0 ≤ (jsClamp x (Q.ofInt 0) (Q.ofInt 1)).val ∧
      (jsClamp x (Q.ofInt 0) (Q.ofInt 1)).val ≤ 1 := by
  unfold jsClamp
  rw [Q.val_max, Q.val_min, Q.val_ofInt, Q.val_ofInt]
  push_cast
  exact ⟨le_max_left _ _, max_le (by norm_num) (min_le_left _ _)⟩

theorem pv_conv (pl2 : Plane) (s e : P2) (tt : Q) :
    pv pl2 (Q.add s.1 (Q.mul tt (Q.sub e.1 s.1)), Q.add s.2 (Q.mul tt (Q.sub e.2 s.2)))
      = pv pl2 s + tt.val * (pv pl2 e - pv pl2 s) := by
  unfold pv
  dsimp only
  rw [Q.val_add, Q.val_add, Q.val_mul, Q.val_mul, Q.val_sub, Q.val_sub]
  ring

theorem denom_val (pl : Plane) (s e : P2) :
    (Q.add (Q.mul pl.a (Q.sub e.1 s.1)) (Q.mul pl.b (Q.sub e.2 s.2))).val
      = pv pl e - pv pl s := by
  unfold pv
  rw [Q.val_add, Q.val_mul, Q.val_mul, Q.val_sub, Q.val_sub]
  ring

/-- The clipping plane's own value is bounded at the intersection point,
including the near-parallel fallback and the clamped-parameter cases. -/
theorem intersect_pv_self (s e : P2) (pl : Plane)
    (h : Min.min (pv pl s) (pv pl e) ≤ qEps9.val) :
    pv pl (intersectSegPlane s e pl) ≤ qEps9.val + qEps12.val := by
  have h9 : qEps9.val = 1 / 1000000000 := eps9_val
  have h12 : qEps12.val = 1 / 1000000000000 := eps12_val
  unfold intersectSegPlane
  dsimp only
  split
  case isTrue hpar =>
    have habs : |pv pl e - pv pl s| < qEps12.val := by
      have := (Q.blt_iff _ _).mp hpar
      rwa [Q.val_abs, denom_val] at this
    have hlt := (abs_lt.mp habs).1
    show pv pl s ≤ _
    rcases min_le_iff.mp h with hu | hv
    · linarith
    · linarith
  case isFalse hpar =>
    have habs : qEps12.val ≤ |pv pl e - pv pl s| := by
      by_contra hc
      push_neg at hc
      exact hpar ((Q.blt_iff _ _).mpr (by rwa [Q.val_abs, denom_val]))
    have hD : pv pl e - pv pl s ≠ 0 := by
      intro hz
      rw [hz] at habs
      simp at habs
      linarith
    have hDv : (Q.add (Q.mul pl.a (Q.sub e.1 s.1)) (Q.mul pl.b (Q.sub e.2 s.2))).val ≠ 0 := by
      rw [denom_val]
      exact hD
    have htv : (Q.div (Q.sub pl.c (Q.add (Q.mul pl.a s.1) (Q.mul pl.b s.2)))
        (Q.add (Q.mul pl.a (Q.sub e.1 s.1)) (Q.mul pl.b (Q.sub e.2 s.2)))).val
        = (-(pv pl s)) / (pv pl e - pv pl s) := by
      rw [Q.val_div _ _ hDv, denom_val]
      congr 1
      unfold pv
      rw [Q.val_sub, Q.val_add, Q.val_mul, Q.val_mul]
      ring
    rw [pv_conv]
    unfold jsClamp
    rw [Q.val_max, Q.val_min, Q.val_ofInt, Q.val_ofInt, htv]
    push_cast
    set u := pv pl s with hu
    set v := pv pl e with hv
    rcases le_total ((-u) / (v - u)) 0 with ht0 | ht0
    · rw [min_eq_right (le_trans ht0 zero_le_one), max_eq_left ht0]
      rw [zero_mul, add_zero]
      rcases min_le_iff.mp h with h1 | h1
      · linarith
      · by_contra hcon
        push_neg at hcon
        have hup : 0 < u := by linarith
        have hDneg : v - u < 0 := by linarith
        have hpos : 0 < (-u) / (v - u) := by
          rw [div_pos_iff]
          right
          constructor <;> linarith
        linarith
    · rcases le_total 1 ((-u) / (v - u)) with ht1 | ht1
      · rw [min_eq_left ht1, max_eq_right zero_le_one, one_mul]
        rcases min_le_iff.mp h with h1 | h1
        · by_contra hcon
          push_neg at hcon
          have hvp : 0 < v := by linarith
          have hDpos : 0 < v - u := by linarith
          have := (one_le_div hDpos).mp ht1
          linarith
        · linarith
      · rw [min_eq_right ht1, max_eq_right ht0]
        have hcancel : u + (-u) / (v - u) * (v - u) = 0 := by
          field_simp
        rw [hcancel]
        linarith

/-- Any other plane's value bound survives the intersection point. -/
theorem intersect_pv_other (s e : P2) (pl pl2 : Plane) (B : ℚ)
    (hs : pv pl2 s ≤ B) (he : pv pl2 e ≤ B) :
    pv pl2 (intersectSegPlane s e pl) ≤ B := by
  unfold intersectSegPlane
  dsimp only
  split
  case isTrue hpar => exact hs
  case isFalse hpar =>
    rw [pv_conv]
    have hb := jsClamp01_val_bounds (Q.div (Q.sub pl.c (Q.add (Q.mul pl.a s.1) (Q.mul pl.b s.2)))
      (Q.add (Q.mul pl.a (Q.sub e.1 s.1)) (Q.mul pl.b (Q.sub e.2 s.2))))
    nlinarith [hb.1, hb.2, mul_nonneg hb.1 (sub_nonneg.mpr he),
      mul_nonneg (sub_nonneg.mpr hb.2) (sub_nonneg.mpr hs)]

theorem clipStep_preserves (pl : Plane) (P : P2 → Prop) (acc : List P2) (se : P2 × P2)
    (hacc : ∀ v ∈ acc, P v)
    (hkeep : isInsidePlane se.2 pl = true → P se.2)
    (hint : (isInsidePlane se.1 pl = true ∨ isInsidePlane se.2 pl = true) →
        P (intersectSegPlane se.1 se.2 pl)) :
    ∀ v ∈ clipStep pl acc se, P v := by
  unfold clipStep
  dsimp only
  intro v hv
  by_cases he : isInsidePlane se.2 pl = true
  · rw [if_pos he] at hv
    by_cases hs : isInsidePlane se.1 pl = true
    · rw [if_pos hs] at hv
      rcases List.mem_append.mp hv with h | h
      · exact hacc v h
      · simp at h
        subst h
        exact hkeep he
    · rw [if_neg hs] at hv
      rcases List.mem_append.mp hv with h | h
      · exact hacc v h
      · simp at h
        rcases h with h | h
        · subst h
          exact hint (Or.inr he)
        · subst h
          exact hkeep he
  · rw [if_neg he] at hv
    by_cases hs : isInsidePlane se.1 pl = true
    · rw [if_pos hs] at hv
      rcases List.mem_append.mp hv with h | h
      · exact hacc v h
      · simp at h
        subst h
        exact hint (Or.inl hs)
    · rw [if_neg hs] at hv
      exact hacc v hv

theorem clipFold_preserves (pl : Plane) (P : P2 → Prop) :
    ∀ (pairs : List (P2 × P2)) (acc : List P2),
      (∀ v ∈ acc, P v) →
      (∀ se ∈ pairs, (isInsidePlane se.2 pl = true → P se.2) ∧
          ((isInsidePlane se.1 pl = true ∨ isInsidePlane se.2 pl = true) →
            P (intersectSegPlane se.1 se.2 pl))) →
      ∀ v ∈ pairs.foldl (clipStep pl) acc, P v := by
  intro pairs
  induction pairs with
  | nil => intro acc hacc _ v hv; exact hacc v hv
  | cons se rest ih =>
      intro acc hacc hse v hv
      rw [List.foldl_cons] at hv
      refine ih _ ?_ (fun se2 h2 => hse se2 (by simp [h2])) v hv
      exact clipStep_preserves pl P acc se hacc (hse se (by simp)).1 (hse se (by simp)).2

/-- Every vertex surviving one clip step satisfies that step's plane within
`1e-9 + 1e-12`. -/
theorem clipPolyByPlane_self_slack (poly : List P2) (pl : Plane) (out : List P2)
    (h : clipPolyByPlane poly pl = some out) :
    ∀ v ∈ out, pv pl v ≤ qEps9.val + qEps12.val := by
  unfold clipPolyByPlane at h
  split at h
  · exact absurd h (by simp)
  · dsimp only at h
    split at h
    · cases h
      refine clipFold_preserves pl _ (edgePairs poly) [] (by simp) ?_
      intro se _
      have h12 : 0 < qEps12.val := by rw [eps12_val]; norm_num
      constructor
      · intro he
        have := (isInsidePlane_iff se.2 pl).mp he
        linarith
      · intro hor
        apply intersect_pv_self
        rcases hor with hs | he
        · exact le_trans (min_le_left _ _) ((isInsidePlane_iff se.1 pl).mp hs)
        · exact le_trans (min_le_right _ _) ((isInsidePlane_iff se.2 pl).mp he)
    · exact absurd h (by simp)

theorem edgePairs_mem (poly : List P2) (se : P2 × P2) (h : se ∈ edgePairs poly) :
    se.1 ∈ poly ∧ se.2 ∈ poly := by
  unfold edgePairs at h
  have h2 := List.of_mem_zip h
  exact ⟨h2.1, (List.mem_rotate).mp h2.2⟩

/-- A plane-value bound on all input vertices survives one clip step by any
plane. -/
theorem clipPolyByPlane_other_slack (poly : List P2) (pl pl2 : Plane) (out : List P2)
    (B : ℚ) (h : clipPolyByPlane poly pl = some out) (hpoly : ∀ v ∈ poly, pv pl2 v ≤ B) :
    ∀ v ∈ out, pv pl2 v ≤ B := by
  unfold clipPolyByPlane at h
  split at h
  · exact absurd h (by simp)
  · dsimp only at h
    split at h
    · cases h
      refine clipFold_preserves pl _ (edgePairs poly) [] (by simp) ?_
      intro se hse
      have hm := edgePairs_mem poly se hse
      exact ⟨fun _ => hpoly se.2 hm.2,
        fun _ => intersect_pv_other se.1 se.2 pl pl2 B (hpoly se.1 hm.1) (hpoly se.2 hm.2)⟩
    · exact absurd h (by simp)

theorem clipFoldPlanes_none (planes : List Plane) :
    planes.foldl
      (fun acc pl => match acc with
        | none => none
        | some p => clipPolyByPlane p pl)
      none = none := by
  induction planes with
  | nil => rfl
  | cons pl rest ih => rw [List.foldl_cons]; exact ih

theorem clipFoldPlanes_other (pl2 : Plane) (B : ℚ) :
    ∀ (planes : List Plane) (acc : List P2) (out : List P2),
      planes.foldl
        (fun acc pl => match acc with
          | none => none
          | some p => clipPolyByPlane p pl)
        (some acc) = some out →
      (∀ v ∈ acc, pv pl2 v ≤ B) → ∀ v ∈ out, pv pl2 v ≤ B := by
  intro planes
  induction planes with
  | nil =>
      intro acc out h hacc
      simp only [List.foldl_nil] at h
      cases h
      exact hacc
  | cons pl rest ih =>
      intro acc out h hacc
      rw [List.foldl_cons] at h
      dsimp only at h
      cases heq : clipPolyByPlane acc pl with
      | none =>
          rw [heq, clipFoldPlanes_none rest] at h
          exact absurd h (by simp)
      | some mid =>
          rw [heq] at h
          exact ih mid out h (clipPolyByPlane_other_slack acc pl pl2 mid B heq hacc)

/-- Every vertex of a fully clipped polygon satisfies every clip plane
within `1e-9 + 1e-12`. -/
theorem clipPolyByPlanes_slack :
    ∀ (planes : List Plane) (poly out : List P2),
      clipPolyByPlanes poly planes = some out →
      ∀ pl ∈ planes, ∀ v ∈ out, pv pl v ≤ qEps9.val + qEps12.val := by
  intro planes
  induction planes with
  | nil =>
      intro poly out _ pl hpl
      exact absurd hpl (by simp)
  | cons pl0 rest ih =>
      intro poly out h pl hpl
      unfold clipPolyByPlanes at h
      rw [List.foldl_cons] at h
      dsimp only at h
      cases heq : clipPolyByPlane poly pl0 with
      | none =>
          rw [heq] at h
          exact absurd h (by simp [clipFoldPlanes_none])
      | some mid =>
          rw [heq] at h
          rcases List.mem_cons.mp hpl with hpl0 | hplr
          · subst hpl0
            exact clipFoldPlanes_other pl (qEps9.val + qEps12.val) rest mid out h
              (clipPolyByPlane_self_slack poly pl mid heq)
          · exact ih mid out h pl hplr

/-- The containment tolerance: fallback-triangle radius plus clip slack. -/
def inflate (size : Q) : ℚ :=
  Max.max (11 / 10 : ℚ) (size.val * (2 / 1000)) + qEps9.val + qEps12.val

theorem epsSum_pos : 0 < qEps9.val + qEps12.val := by
  rw [eps9_val, eps12_val]
  norm_num

theorem ddv_ge : (11 / 10 : ℚ) ≤ Max.max (11 / 10 : ℚ) (size0 * (2 / 1000)) :=
  le_max_left _ _

theorem fbDist_val (size : Q) :
    (Q.max (Q.norm 11 10) (Q.mul size (Q.norm 2 1000))).val
      = Max.max (11 / 10 : ℚ) (size.val * (2 / 1000)) := by
  rw [Q.val_max, Q.val_mul, Q.val_norm _ _ (by norm_num), Q.val_norm _ _ (by norm_num)]
  norm_num

theorem makeFallbackTriangle_bounds (pt : P2) (size : Q)
    (hx0 : 0 ≤ pt.1.val) (hx1 : pt.1.val ≤ size.val)
    (hy0 : 0 ≤ pt.2.val) (hy1 : pt.2.val ≤ size.val) :
    ∀ v ∈ makeFallbackTriangle pt size,
      -(inflate size) ≤ v.1.val ∧ v.1.val ≤ size.val + inflate size ∧
      -(inflate size) ≤ v.2.val ∧ v.2.val ≤ size.val + inflate size := by
  intro v hv
  unfold makeFallbackTriangle at hv
  dsimp only at hv
  have hd : (Q.max (Q.norm 11 10) (Q.mul size (Q.norm 2 1000))).val
      = Max.max (11 / 10 : ℚ) (size.val * (2 / 1000)) := fbDist_val size
  have hdge : (11 / 10 : ℚ) ≤ Max.max (11 / 10 : ℚ) (size.val * (2 / 1000)) := le_max_left _ _
  have hes := epsSum_pos
  have hinf : inflate size
      = Max.max (11 / 10 : ℚ) (size.val * (2 / 1000)) + (qEps9.val + qEps12.val) := by
    unfold inflate
    ring
  simp only [List.mem_cons, List.not_mem_nil, or_false] at hv
  rcases hv with h | h | h <;>
    · subst h
      dsimp only
      rw [hinf]
      constructor
      · first
          | (rw [Q.val_sub, hd]; linarith)
          | (rw [Q.val_add, hd]; linarith)
          | linarith
      constructor
      · first
          | (rw [Q.val_sub, hd]; linarith)
          | (rw [Q.val_add, hd]; linarith)
          | linarith
      constructor
      · first
          | (rw [Q.val_sub, hd]; linarith)
          | (rw [Q.val_add, hd]; linarith)
          | linarith
      first
        | (rw [Q.val_sub, hd]; linarith)
        | (rw [Q.val_add, hd]; linarith)
        | linarith

theorem squarePlanes_bounds (size : Q) (planes : List Plane) (out : List P2)
    (hsub : ∀ pl ∈ makeSquarePlanes size, pl ∈ planes)
    (hslack : ∀ pl ∈ planes, ∀ v ∈ out, pv pl v ≤ qEps9.val + qEps12.val) :
    ∀ v ∈ out,
      -(qEps9.val + qEps12.val) ≤ v.1.val ∧ v.1.val ≤ size.val + (qEps9.val + qEps12.val) ∧
      -(qEps9.val + qEps12.val) ≤ v.2.val ∧ v.2.val ≤ size.val + (qEps9.val + qEps12.val) := by
  intro v hv
  have h1 := hslack ⟨Q.ofInt (-1), Q.ofInt 0, Q.ofInt 0⟩
    (hsub _ (by simp [makeSquarePlanes])) v hv
  have h2 := hslack ⟨Q.ofInt 1, Q.ofInt 0, size⟩
    (hsub _ (by simp [makeSquarePlanes])) v hv
  have h3 := hslack ⟨Q.ofInt 0, Q.ofInt (-1), Q.ofInt 0⟩
    (hsub _ (by simp [makeSquarePlanes])) v hv
  have h4 := hslack ⟨Q.ofInt 0, Q.ofInt 1, size⟩
    (hsub _ (by simp [makeSquarePlanes])) v hv
  unfold pv at h1 h2 h3 h4
  dsimp only at h1 h2 h3 h4
  simp only [Q.val_ofInt] at h1 h2 h3 h4
  push_cast at h1 h2 h3 h4
  refine ⟨by linarith, by linarith, by linarith, by linarith⟩

theorem clipped_in_tolerance (size : Q) (extra : List Plane) (poly out : List P2)
    (h : clipPolyByPlanes poly (makeSquarePlanes size ++ extra) = some out) :
    ∀ v ∈ out,
      -(inflate size) ≤ v.1.val ∧ v.1.val ≤ size.val + inflate size ∧
      -(inflate size) ≤ v.2.val ∧ v.2.val ≤ size.val + inflate size := by
  have hs := clipPolyByPlanes_slack (makeSquarePlanes size ++ extra) poly out h
  have hb := squarePlanes_bounds size (makeSquarePlanes size ++ extra) out
    (fun pl hpl => List.mem_append_left _ hpl) hs
  intro v hv
  have h1 := hb v hv
  have hdge : (11 / 10 : ℚ) ≤ Max.max (11 / 10 : ℚ) (size.val * (2 / 1000)) := le_max_left _ _
  have hinf : inflate size
      = Max.max (11 / 10 : ℚ) (size.val * (2 / 1000)) + (qEps9.val + qEps12.val) := by
    unfold inflate
    ring
  rw [hinf]
  exact ⟨by linarith [h1.1], by linarith [h1.2.1], by linarith [h1.2.2.1],
    by linarith [h1.2.2.2]⟩

theorem cellPolyFor_in_tolerance (E : Ext) (points : List P2) (size : Q)
    (extra : List Plane) (i : ℕ) (hsz : 0 ≤ size.val)
    (hpts : ∀ p ∈ points,
      0 ≤ p.1.val ∧ p.1.val ≤ size.val ∧ 0 ≤ p.2.val ∧ p.2.val ≤ size.val) :
    ∀ v ∈ cellPolyFor E points size (makeSquarePlanes size ++ extra) i,
      -(inflate size) ≤ v.1.val ∧ v.1.val ≤ size.val + inflate size ∧
      -(inflate size) ≤ v.2.val ∧ v.2.val ≤ size.val + inflate size := by
  have hpt : 0 ≤ (points.getD i (Q.ofInt 0, Q.ofInt 0)).1.val ∧
      (points.getD i (Q.ofInt 0, Q.ofInt 0)).1.val ≤ size.val ∧
      0 ≤ (points.getD i (Q.ofInt 0, Q.ofInt 0)).2.val ∧
      (points.getD i (Q.ofInt 0, Q.ofInt 0)).2.val ≤ size.val := by
    by_cases hi : i < points.length
    · rw [List.getD_eq_getElem _ _ hi]
      exact hpts _ (List.getElem_mem _)
    · rw [List.getD_eq_default _ _ (by omega)]
      dsimp only
      rw [Q.val_ofInt]
      push_cast
      exact ⟨le_refl 0, hsz, le_refl 0, hsz⟩
  have hfb := makeFallbackTriangle_bounds (points.getD i (Q.ofInt 0, Q.ofInt 0)) size
    hpt.1 hpt.2.1 hpt.2.2.1 hpt.2.2.2
  unfold cellPolyFor
  dsimp only
  split
  case h_1 clipped hcl =>
    split
    case isTrue hlen =>
      split
      case h_1 c2 hc2 => exact clipped_in_tolerance size extra _ c2 hc2
      case h_2 hc2 => exact hfb
    case isFalse hlen => exact clipped_in_tolerance size extra _ clipped hcl
  case h_2 hcl =>
    split
    case h_1 c2 hc2 => exact clipped_in_tolerance size extra _ c2 hc2
    case h_2 hc2 => exact hfb

theorem jsClamp_range (w size : Q) (h : 0 ≤ size.val) :
    0 ≤ (jsClamp w (Q.ofInt 0) size).val ∧ (jsClamp w (Q.ofInt 0) size).val ≤ size.val := by
  unfold jsClamp
  rw [Q.val_max, Q.val_min, Q.val_ofInt]
  push_cast
  exact ⟨le_max_left _ _, max_le h (min_le_left _ _)⟩

/-- C3 (amended): every vertex of every cell produced by
`buildCellsForRegion` — for sites inside the square and any region plane
set extending the four square planes — lies within the square inflated by
`max(1.1, 0.002*size) + 1e-9 + 1e-12`: the fallback-triangle radius plus
the Sutherland-Hodgman tolerance. The frozen claim of exact
`[0, boardSize]` containment is refuted by the clip tolerance (see the
counterexample). -/
theorem buildCellsForRegion_in_tolerance (E : Ext) (points : List P2) (size : Q)
    (extra : List Plane) (hsz : Q.ble (Q.ofInt 0) size = true)
    (hpts : ∀ p ∈ points,
      (Q.ble (Q.ofInt 0) p.1 && Q.ble p.1 size &&
       Q.ble (Q.ofInt 0) p.2 && Q.ble p.2 size) = true) :
    ∀ c ∈ buildCellsForRegion E points size (makeSquarePlanes size ++ extra),
      ∀ v ∈ c.poly,
        -(inflate size) ≤ v.1.val ∧ v.1.val ≤ size.val + inflate size ∧
        -(inflate size) ≤ v.2.val ∧ v.2.val ≤ size.val + inflate size := by
  have hszv : 0 ≤ size.val := by
    have := (Q.ble_iff _ _).mp hsz
    rwa [Q.val_ofInt] at this
  have hptsv : ∀ p ∈ points,
      0 ≤ p.1.val ∧ p.1.val ≤ size.val ∧ 0 ≤ p.2.val ∧ p.2.val ≤ size.val := by
    intro p hp
    have h := hpts p hp
    simp only [Bool.and_eq_true] at h
    have h1 := (Q.ble_iff _ _).mp h.1.1.1
    have h2 := (Q.ble_iff _ _).mp h.1.1.2
    have h3 := (Q.ble_iff _ _).mp h.1.2
    have h4 := (Q.ble_iff _ _).mp h.2
    rw [Q.val_ofInt] at h1 h3
    push_cast at h1 h3
    exact ⟨h1, h2, h3, h4⟩
  intro c hc
  unfold buildCellsForRegion at hc
  rcases List.mem_map.mp hc with ⟨i, hi, hval⟩
  subst hval
  dsimp only
  intro v hv
  split at hv
  case isTrue hlen =>
    have hpt : 0 ≤ (points.getD i (Q.ofInt 0, Q.ofInt 0)).1.val ∧
        (points.getD i (Q.ofInt 0, Q.ofInt 0)).1.val ≤ size.val ∧
        0 ≤ (points.getD i (Q.ofInt 0, Q.ofInt 0)).2.val ∧
        (points.getD i (Q.ofInt 0, Q.ofInt 0)).2.val ≤ size.val := by
      by_cases hib : i < points.length
      · rw [List.getD_eq_getElem _ _ hib]
        exact hptsv _ (List.getElem_mem _)
      · rw [List.getD_eq_default _ _ (by omega)]
        dsimp only
        rw [Q.val_ofInt]
        push_cast
        exact ⟨le_refl 0, hszv, le_refl 0, hszv⟩
    have hinfpos : 0 < inflate size := by
      unfold inflate
      have := epsSum_pos
      have : (11 / 10 : ℚ) ≤ Max.max (11 / 10 : ℚ) (size.val * (2 / 1000)) := le_max_left _ _
      have := epsSum_pos
      linarith
    simp only [List.mem_cons, List.not_mem_nil, or_false] at hv
    rcases hv with h | h | h | h <;>
      · subst h
        dsimp only
        refine ⟨?_, ?_, ?_, ?_⟩ <;>
          linarith [hinfpos,
            (jsClamp_range (Q.sub (points.getD i (Q.ofInt 0, Q.ofInt 0)).1 (Q.ofInt 1))
              size hszv).1,
            (jsClamp_range (Q.sub (points.getD i (Q.ofInt 0, Q.ofInt 0)).1 (Q.ofInt 1))
              size hszv).2,
            (jsClamp_range (Q.add (points.getD i (Q.ofInt 0, Q.ofInt 0)).1 (Q.ofInt 1))
              size hszv).1,
            (jsClamp_range (Q.add (points.getD i (Q.ofInt 0, Q.ofInt 0)).1 (Q.ofInt 1))
              size hszv).2,
            (jsClamp_range (Q.sub (points.getD i (Q.ofInt 0, Q.ofInt 0)).2 (Q.ofInt 1))
              size hszv).1,
            (jsClamp_range (Q.sub (points.getD i (Q.ofInt 0, Q.ofInt 0)).2 (Q.ofInt 1))
              size hszv).2,
            (jsClamp_range (Q.add (points.getD i (Q.ofInt 0, Q.ofInt 0)).2 (Q.ofInt 1))
              size hszv).1,
            (jsClamp_range (Q.add (points.getD i (Q.ofInt 0, Q.ofInt 0)).2 (Q.ofInt 1))
              size hszv).2]
  case isFalse hlen =>
    exact cellPolyFor_in_tolerance E points size extra i hszv hptsv v hv

/-- C3 witness: one interior site in the plain square region. -/
theorem buildCellsForRegion_in_tolerance_witness :
    Q.ble (Q.ofInt 0) (Q.ofInt 1000) = true ∧
    ∀ c ∈ buildCellsForRegion ext0 [(Q.ofInt 500, Q.ofInt 500)] (Q.ofInt 1000)
        (makeSquarePlanes (Q.ofInt 1000) ++ []),
      ∀ v ∈ c.poly,
        -(inflate (Q.ofInt 1000)) ≤ v.1.val ∧
          v.1.val ≤ (Q.ofInt 1000).val + inflate (Q.ofInt 1000) ∧
        -(inflate (Q.ofInt 1000)) ≤ v.2.val ∧
          v.2.val ≤ (Q.ofInt 1000).val + inflate (Q.ofInt 1000) :=
  ⟨by decide,
    buildCellsForRegion_in_tolerance ext0 [(Q.ofInt 500, Q.ofInt 500)] (Q.ofInt 1000) []
      (by decide) (by decide)⟩

/-- C3 counterexample: a Voronoi cell vertex `1e-10` beyond `boardSize`
survives the `eps = 1e-9` clip tolerance, so the built board has a cell
vertex strictly outside `[0, boardSize] × [0, boardSize]`. -/
theorem buildBoard_vertex_outside_square :
    ¬ ((buildBoard extBad "0" ⟨"a", 1, some 0⟩ (Q.ofInt 1000)).cells.all
        (fun c => c.poly.all (inSquareB (Q.ofInt 1000))) = true) := by decide

end JustClick
